import Mathlib

/-!
# Entity & Relationship Graph Engine — shallow embedding

This file embeds the core of the `UE5_AI_API` context manager
(`src/unnamed/part_004`, the expanded variant of `src/utils/contextManager.js`)
in Lean 4 and proves/refutes the frozen claims about it.

Two layers are embedded:

* a **store layer**: the in-memory `npcContexts` map and the operations
  `initializeNpc` (its store-mutation part), `addMessage`,
  `getConversationHistory`, `getNpcMetadata`, `findNpcByName`,
  `updateNpcMetadata`, `clearConversationHistory`, `removeNpc`,
  `getNpcRelationship`, `discoverNpcRelationships`,
  `getNpcRelationshipNetwork`.  Stored relationship labels are modelled as
  strings (the canonical shape after normalization); entity ids are strings,
  and id freshness (`crypto.randomUUID` never colliding) is a side condition
  of the registration step.
* a **normalizer layer** (further below): the defensive ingestion
  normalization segment of `initializeNpc`, over a model of JavaScript
  values.

JavaScript semantics modelled explicitly: `Map` iteration is insertion
order; object property access returns `undefined` (here `Option.none`) for
missing keys; `x || y` and `if (x)` use JS truthiness (for strings: the
empty string is falsy).
-/

/-- Model of `toLowerCase` (ASCII), written over the character list so that closed
instances evaluate inside the kernel. -/
def jsToLower (s : String) : String :=
  String.mk (s.data.map Char.toLower)

/-- Model of `String.includes` for a single character, over the character list. -/
def jsContainsChar (s : String) (c : Char) : Bool :=
  s.data.contains c

/-- JS truthiness of a possibly-undefined string value
(`undefined` and `""` are falsy). -/
def jsFalsyStr : Option String → Bool
  | none => true
  | some v => v == ""

/-- Model of `v || "none"`, as applied to a possibly-undefined string label
(part_004 lines 997–998). -/
def jsLabelOrNone (v : Option String) : String :=
  match v with
  | none => "none"
  | some l => if l == "" then "none" else l

/-- One conversation message (`{role, content, timestamp}`,
part_004 lines 810–814); the wall-clock ISO timestamp is abstracted to a
number supplied by the caller. -/
structure Msg where
  role : String
  content : String
  timestamp : Nat
deriving Repr, DecidableEq

/-- Stored entity metadata, at the post-normalization shape used by the
relationship queries: `relationships` is a flat name→label map kept in
property insertion order.  The descriptive fields are those the network
assembly reads (`description`, `personality`, `faction`, `location`,
`currentState`); an absent field is modelled as `""` (the code reads them
as `metadata?.field || ''`).  `is_placeholder` is `false` on every stored
entity and `true` only on the placeholder records getNpcRelationship
builds for unresolved identifiers (part_004 lines 941–961). -/
structure NpcMeta where
  name : String
  relationships : List (String × String) := []
  description : String := ""
  personality : String := ""
  faction : String := ""
  location : String := ""
  currentState : String := ""
  is_placeholder : Bool := false
deriving Repr, DecidableEq

/-- A value of the `npcContexts` map: `{ metadata
: {...}, conversations: [...] }` (part_004 lines 717–720). -/
structure NpcEntry where
  meta : NpcMeta
  conversations : List Msg := []
deriving Repr, DecidableEq

/-- The store: `npcContexts` as an insertion-ordered id→entry list, plus
the ghost set of every id ever generated (`crypto.randomUUID` ids are
unique and never reused, so a registration step requires an id outside
`allocated`). -/
structure Store where
  entries : List (String × NpcEntry) := []
  allocated : List String := []
deriving Repr, DecidableEq

/-- The empty store at process start. -/
def emptyStore : Store := {}

/-- Model of `getNpcMetadata` (part_004 lines 865–871): `npcContexts.get(id).metadata`
or `null`. -/
def getNpcMetadata (s : Store) (npcId : String) : Option NpcMeta :=
  (s.entries.find? (fun p => p.1 == npcId)).map (fun p => p.2.meta)

/-- Model of `findNpcByName` (part_004 lines 878–892): first entity (in insertion
order) whose name matches case-insensitively; returns its id and metadata. -/
def findNpcByName (s : Store) (name : String) : Option (String × NpcMeta) :=
  (s.entries.find? (fun p => jsToLower p.2.meta.name == jsToLower name)).map
    (fun p => (p.1, p.2.meta))

/-- Model of `removeNpc` (part_004 lines 1526–1535): delete the binding if present. -/
def removeNpc (s : Store) (npcId : String) : Store :=
  { s with entries := s.entries.filter (fun p => !(p.1 == npcId)) }

/-- The store-mutation part of `initializeNpc` (part_004 lines 34–53 and
716–720): if an entity with a case-insensitively equal name exists, remove
it, then bind a fresh id to the (already normalized) metadata with an empty
conversation list.  `newId` plays the role of `crypto.randomUUID()`. -/
def initializeNpc (s : Store) (newId : String) (meta : NpcMeta) : Store :=
  let s' :=
    match findNpcByName s meta.name with
    | some (oldId, _) => removeNpc s oldId
    | none => s
  { entries := s'.entries ++ [(newId, { meta := meta })],
    allocated := s'.allocated ++ [newId] }

/-- Partial metadata update for `updateNpcMetadata`'s shallow merge
`{ ...metadata, ...updates }` (part_004 lines 1489–1500), restricted to the
typed fields of `NpcMeta`: a `some` field overwrites, `none` leaves the old
value. -/
structure MetaUpdate where
  name : Option String := none
  relationships : Option (List (String × String)) := none
  description : Option String := none
  personality : Option String := none
  faction : Option String := none
  location : Option String := none
  currentState : Option String := none
deriving Repr, DecidableEq

/-- Model of `{ ...metadata, ...updates }`. -/
def applyMetaUpdate (m : NpcMeta) (u : MetaUpdate) : NpcMeta :=
  { m with
    name := u.name.getD m.name,
    relationships := u.relationships.getD m.relationships,
    description := u.description.getD m.description,
    personality := u.personality.getD m.personality,
    faction := u.faction.getD m.faction,
    location := u.location.getD m.location,
    currentState := u.currentState.getD m.currentState }

/-- Model of `updateNpcMetadata` (part_004 lines 1489–1500). -/
def updateNpcMetadata (s : Store) (npcId : String) (u : MetaUpdate) : Store :=
  { s with entries := s.entries.map (fun p =>
      if p.1 == npcId then (p.1, { p.2 with meta := applyMetaUpdate p.2.meta u }) else p) }

/-- Model of `addMessage` (part_004 lines 801–819): append a message; `now` stands
for `new Date().toISOString()`. -/
def addMessage (s : Store) (npcId : String) (role content : String) (now : Nat) : Store :=
  { s with entries := s.entries.map (fun p =>
      if p.1 == npcId then
        (p.1, { p.2 with conversations :=
          p.2.conversations ++ [{ role := role, content := content, timestamp := now }] })
      else p) }

/-- Model of `clearConversationHistory` (part_004 lines 1507–1519). -/
def clearConversationHistory (s : Store) (npcId : String) : Store :=
  { s with entries := s.entries.map (fun p =>
      if p.1 == npcId then (p.1, { p.2 with conversations := [] }) else p) }

/-- Model of `getConversationHistory` (part_004 lines 827–838):
`limit > 0 ? conversations.slice(-limit) : conversations`, `null` when the
id is unknown.  `slice(-limit)` keeps the last `min limit length` elements,
which over `Nat` is `drop (length - limit)`. -/
def getConversationHistory (s : Store) (npcId : String) (limit : Nat) : Option (List Msg) :=
  match s.entries.find? (fun p => p.1 == npcId) with
  | none => none
  | some p =>
    let conversations := p.2.conversations
    some (if limit > 0 then conversations.drop (conversations.length - limit) else conversations)

/-- The directed label lookup of `getNpcRelationship` (part_004 lines
967–990): exact property access first; if the result is falsy
(`undefined` or `""`), scan the map in order for the first
case-insensitively matching key. -/
def relLookup (rels : List (String × String)) (target : String) : Option String :=
  let exact := (rels.find? (fun p => p.1 == target)).map (fun p => p.2)
  if jsFalsyStr exact then
    match rels.find? (fun p => jsToLower p.1 == jsToLower target) with
    | some p => some p.2
    | none => exact
  else exact

/-- Placeholder metadata for an unresolved identifier (part_004 lines
936–964): the identifier itself is used as the name when it does not look
like a UUID (no `'-'`). -/
def placeholderMeta (idf : String) : NpcMeta :=
  { name := if jsContainsChar idf '-' then "Unknown NPC (" ++ idf ++ ")" else idf,
    relationships := [],
    is_placeholder := true }

/-- The successful result record of `getNpcRelationship`
(part_004 lines 992–1004). -/
structure RelInfo where
  npc1_id : String
  npc2_id : String
  npc1_name : String
  npc2_name : String
  npc1_to_npc2 : String
  npc2_to_npc1 : String
  is_mutual : Bool
  is_conflicting : Bool
  npc1_exists : Bool
  npc2_exists : Bool
  is_future_relationship : Bool
deriving Repr, DecidableEq

/-- Result of `getNpcRelationship`: either the explicit "not found" record
(part_004 lines 925–932; `status: "unknown"`, an `error` message, and the
`npc1_found`/`npc2_found` flags) or the relationship record. -/
inductive RelResult where
  | notFound (npc1_found npc2_found : Bool) (npc1_identifier npc2_identifier : String)
  | ok (info : RelInfo)
deriving Repr, DecidableEq

/-- Resolution used by `getNpcRelationship` for each argument (part_004
lines 902–919): by id first, then by name (re-fetching the metadata by the
found id). -/
def resolveMeta (s : Store) (idOrName : String) : Option NpcMeta :=
  match getNpcMetadata s idOrName with
  | some m => some m
  | none =>
    match findNpcByName s idOrName with
    | some (i, _) => getNpcMetadata s i
    | none => none

/-- Shared tail of `getNpcRelationship` (part_004 lines 967–1004), applied
to the two resolved-or-placeholder metadata records.  The stored metadata
has no `id` property, so `npc1.id || npcId1OrName` is the identifier the
caller passed. -/
def mkRelInfo (idf1 idf2 : String) (npc1 npc2 : NpcMeta) : RelInfo :=
  let r1 := relLookup npc1.relationships npc2.name
  let r2 := relLookup npc2.relationships npc1.name
  { npc1_id := idf1,
    npc2_id := idf2,
    npc1_name := npc1.name,
    npc2_name := npc2.name,
    npc1_to_npc2 := jsLabelOrNone r1,
    npc2_to_npc1 := jsLabelOrNone r2,
    is_mutual := r1 == r2 && r1.isSome,
    is_conflicting := !(r1 == r2) && r1.isSome && r2.isSome,
    npc1_exists := !npc1.is_placeholder,
    npc2_exists := !npc2.is_placeholder,
    is_future_relationship := npc1.is_placeholder || npc2.is_placeholder }

/-- Model of `getNpcRelationship` (part_004 lines 901–1005).  With
`includeFutureRelationships = false` an unresolved side yields the explicit
not-found record; with the default `true` the unresolved sides are replaced
by placeholder records and a normal result is produced.  The function is
total (the JS code throws for no input on this path). -/
def getNpcRelationship (s : Store) (idf1 idf2 : String)
    (includeFutureRelationships : Bool) : RelResult :=
  let npc1? := resolveMeta s idf1
  let npc2? := resolveMeta s idf2
  if (npc1?.isNone || npc2?.isNone) && !includeFutureRelationships then
    RelResult.notFound npc1?.isSome npc2?.isSome idf1 idf2
  else
    RelResult.ok (mkRelInfo idf1 idf2
      (npc1?.getD (placeholderMeta idf1)) (npc2?.getD (placeholderMeta idf2)))

/-- One indirect-relationship triple (part_004 lines 1186–1197): a common
relationship-target name with both parties' labels toward it (direct map
access, defined because the name is a key of both maps). -/
structure IndirectRel where
  through : String
  target_to_common : String
  other_to_common : String
deriving Repr, DecidableEq

/-- The `direct_relationship` sub-record of a discovery entry
(part_004 lines 1227–1232). -/
structure DirectRel where
  target_to_other : String
  other_to_target : String
  is_mutual : Bool
  is_conflicting : Bool
deriving Repr, DecidableEq

/-- One element of `discovered_relationships` (part_004 lines 1224–1234);
`direct` and `indirect` are `null` (`none`) when absent. -/
structure DiscEntry where
  npc_id : String
  npc_name : String
  direct_relationship : Option DirectRel
  indirect_relationships : Option (List IndirectRel)
deriving Repr, DecidableEq

/-- Running counters of `discoverNpcRelationships`
(part_004 lines 1066–1072); `total_npcs` is `allNpcIds.length - 1`. -/
structure DiscStats where
  total_npcs : Nat
  direct_relationships : Nat
  indirect_relationships : Nat
  mutual_relationships : Nat
  conflicting_relationships : Nat
deriving Repr, DecidableEq

/-- Result of `discoverNpcRelationships`: the error record of part_004
lines 1049–1053 or the success record of lines 1251–1257. -/
inductive DiscResult where
  | error (message : String)
  | success (npc_id npc_name : String) (stats : DiscStats) (discovered : List DiscEntry)
deriving Repr, DecidableEq

/-- Exact (case-sensitive) object property read used for the indirect
triples (`targetNpc.relationships[name]`). -/
def objGet (rels : List (String × String)) (key : String) : Option String :=
  (rels.find? (fun p => p.1 == key)).map (fun p => p.2)

/-- One iteration of the discovery loop (part_004 lines 1092–1245):
skip self, skip ids with no metadata, skip error results; classify the
pair as direct (either reported direction ≠ `"none"`) or look for common
relationship-target names (exact string membership), and update the
counters. -/
def discStep (s : Store) (tid : String) (targetNpc : NpcMeta)
    (acc : List DiscEntry × DiscStats) (otherNpcId : String) :
    List DiscEntry × DiscStats :=
  if otherNpcId == tid then acc
  else
    match getNpcMetadata s otherNpcId with
    | none => acc
    | some otherNpc =>
      match getNpcRelationship s tid otherNpcId true with
      | RelResult.notFound _ _ _ _ => acc
      | RelResult.ok relationship =>
        let hasDirectRelationship :=
          !(relationship.npc1_to_npc2 == "none") || !(relationship.npc2_to_npc1 == "none")
        let indirectRelationships : List IndirectRel :=
          if hasDirectRelationship then []
          else
            let targetConnections := targetNpc.relationships.map (fun p => p.1)
            let otherConnections := otherNpc.relationships.map (fun p => p.1)
            let commonConnections := targetConnections.filter
              (fun name => otherConnections.contains name)
            commonConnections.map (fun name =>
              { through := name,
                target_to_common := (objGet targetNpc.relationships name).getD "",
                other_to_common := (objGet otherNpc.relationships name).getD "" })
        let stats := acc.2
        let stats :=
          if hasDirectRelationship then
            { stats with
              direct_relationships := stats.direct_relationships + 1,
              mutual_relationships :=
                stats.mutual_relationships + (if relationship.is_mutual then 1 else 0),
              conflicting_relationships :=
                stats.conflicting_relationships +
                  (if relationship.is_conflicting then 1 else 0) }
          else if indirectRelationships.length > 0 then
            { stats with indirect_relationships := stats.indirect_relationships + 1 }
          else stats
        let relationshipEntry : DiscEntry :=
          { npc_id := otherNpcId,
            npc_name := otherNpc.name,
            direct_relationship :=
              if hasDirectRelationship then
                some { target_to_other := relationship.npc1_to_npc2,
                       other_to_target := relationship.npc2_to_npc1,
                       is_mutual := relationship.is_mutual,
                       is_conflicting := relationship.is_conflicting }
              else none,
            indirect_relationships :=
              if indirectRelationships.length > 0 then some indirectRelationships else none }
        (acc.1 ++ [relationshipEntry], stats)

/-- Target resolution of `discoverNpcRelationships` (part_004 lines
1022–1044): by id first, then by name, rebinding the loop identifier
(`npcIdOrName = npcByName.id`) to the found id. -/
def resolveDiscoverTarget (s : Store) (npcIdOrName : String) : String × Option NpcMeta :=
  match getNpcMetadata s npcIdOrName with
  | some m => (npcIdOrName, some m)
  | none =>
    match findNpcByName s npcIdOrName with
    | some (i, _) => (i, getNpcMetadata s i)
    | none => (npcIdOrName, none)

/-- Model of `discoverNpcRelationships` (part_004 lines 1013–1282): resolve the
target, then fold the loop body over all stored ids. -/
def discoverNpcRelationships (s : Store) (npcIdOrName : String) : DiscResult :=
  match resolveDiscoverTarget s npcIdOrName with
  | (_, none) =>
    DiscResult.error ("NPC with identifier " ++ npcIdOrName ++ " not found")
  | (tid, some targetNpc) =>
    let allNpcIds := s.entries.map (fun p => p.1)
    let stats0 : DiscStats :=
      { total_npcs := allNpcIds.length - 1,
        direct_relationships := 0,
        indirect_relationships := 0,
        mutual_relationships := 0,
        conflicting_relationships := 0 }
    let looped := allNpcIds.foldl (discStep s tid targetNpc) ([], stats0)
    DiscResult.success tid targetNpc.name looped.2 looped.1

/-- A direct or future entry of the assembled network (part_004 lines
1346–1376): the related party's metadata snapshot plus the direct labels. -/
structure NetDirect where
  name : String
  description : String
  personality : String
  faction : String
  location : String
  currentState : String
  target_to_other : String
  other_to_target : String
  is_mutual : Bool
  is_conflicting : Bool
  is_future : Bool
deriving Repr, DecidableEq

/-- Metadata snapshot of the intermediate party of an indirect link
(part_004 lines 1412–1418); `none` models the empty object used when the
through-name does not resolve. -/
structure ThroughCtx where
  description : String
  personality : String
  faction : String
  location : String
deriving Repr, DecidableEq

/-- An indirect entry of the assembled network (part_004 lines 1429–1437). -/
structure NetIndirect where
  name : String
  description : String
  personality : String
  faction : String
  location : String
  currentState : String
  through : String
  through_context : Option ThroughCtx
  target_to_common : String
  other_to_common : String
deriving Repr, DecidableEq

/-- The assembled relationship network (part_004 lines 1451–1455). -/
structure Network where
  direct_relationships : List NetDirect
  indirect_relationships : List NetIndirect
  future_relationships : List NetDirect
deriving Repr, DecidableEq

/-- Processing of one discovery entry by the network assembly
(part_004 lines 1325–1445): attach the other party's metadata snapshot
(`?.field || ''`); a direct record goes to the future bucket when the
other party's metadata no longer resolves, else to the direct bucket;
otherwise each indirect triple is denormalized with the through-party's
snapshot. -/
def netStep (s : Store) (acc : Network) (rel : DiscEntry) : Network :=
  let relatedNpcMetadata := getNpcMetadata s rel.npc_id
  let npcDescription := (relatedNpcMetadata.map (fun m => m.description)).getD ""
  let npcPersonality := (relatedNpcMetadata.map (fun m => m.personality)).getD ""
  let npcFaction := (relatedNpcMetadata.map (fun m => m.faction)).getD ""
  let npcLocation := (relatedNpcMetadata.map (fun m => m.location)).getD ""
  let npcCurrentState := (relatedNpcMetadata.map (fun m => m.currentState)).getD ""
  let isFutureRelationship := relatedNpcMetadata.isNone
  match rel.direct_relationship with
  | some d =>
    let relationshipData : NetDirect :=
      { name := rel.npc_name,
        description := npcDescription,
        personality := npcPersonality,
        faction := npcFaction,
        location := npcLocation,
        currentState := npcCurrentState,
        target_to_other := d.target_to_other,
        other_to_target := d.other_to_target,
        is_mutual := d.is_mutual,
        is_conflicting := d.is_conflicting,
        is_future := isFutureRelationship }
    if isFutureRelationship then
      { acc with future_relationships := acc.future_relationships ++ [relationshipData] }
    else
      { acc with direct_relationships := acc.direct_relationships ++ [relationshipData] }
  | none =>
    match rel.indirect_relationships with
    | some indirects =>
      let newIndirects := indirects.map (fun indirect =>
        let commonNpc := findNpcByName s indirect.through
        let throughCtx : Option ThroughCtx :=
          match commonNpc with
          | some (cid, _) =>
            let commonNpcMetadata := getNpcMetadata s cid
            some { description := (commonNpcMetadata.map (fun m => m.description)).getD "",
                   personality := (commonNpcMetadata.map (fun m => m.personality)).getD "",
                   faction := (commonNpcMetadata.map (fun m => m.faction)).getD "",
                   location := (commonNpcMetadata.map (fun m => m.location)).getD "" }
          | none => none
        { name := rel.npc_name,
          description := npcDescription,
          personality := npcPersonality,
          faction := npcFaction,
          location := npcLocation,
          currentState := npcCurrentState,
          through := indirect.through,
          through_context := throughCtx,
          target_to_common := indirect.target_to_common,
          other_to_common := indirect.other_to_common })
      { acc with indirect_relationships := acc.indirect_relationships ++ newIndirects }
    | none => acc

/-- Model of `getNpcRelationshipNetwork` (part_004 lines 1290–1481): run discovery,
return `null` on its error, else bucket every discovered entry. -/
def getNpcRelationshipNetwork (s : Store) (npcIdOrName : String) : Option Network :=
  match discoverNpcRelationships s npcIdOrName with
  | DiscResult.error _ => none
  | DiscResult.success _ _ _ discovered =>
    some (discovered.foldl (netStep s)
      { direct_relationships := [], indirect_relationships := [], future_relationships := [] })

/-- One mutation of the store through the module's exported operations.
The register step passes the already-normalized metadata and requires the
generated id to be globally fresh (`crypto.randomUUID`). -/
inductive Step : Store → Store → Prop where
  | register (s : Store) (newId : String) (meta : NpcMeta)
      (hfresh : newId ∉ s.allocated) : Step s (initializeNpc s newId meta)
  | update (s : Store) (npcId : String) (u : MetaUpdate) :
      Step s (updateNpcMetadata s npcId u)
  | message (s : Store) (npcId role content : String) (now : Nat) :
      Step s (addMessage s npcId role content now)
  | clearHistory (s : Store) (npcId : String) :
      Step s (clearConversationHistory s npcId)
  | remove (s : Store) (npcId : String) :
      Step s (removeNpc s npcId)

/-- Same operations, except that metadata updates are not allowed to carry
a `name` field (they never rename an entity). -/
inductive RenameFreeStep : Store → Store → Prop where
  | register (s : Store) (newId : String) (meta : NpcMeta)
      (hfresh : newId ∉ s.allocated) : RenameFreeStep s (initializeNpc s newId meta)
  | update (s : Store) (npcId : String) (u : MetaUpdate) (hname : u.name = none) :
      RenameFreeStep s (updateNpcMetadata s npcId u)
  | message (s : Store) (npcId role content : String) (now : Nat) :
      RenameFreeStep s (addMessage s npcId role content now)
  | clearHistory (s : Store) (npcId : String) :
      RenameFreeStep s (clearConversationHistory s npcId)
  | remove (s : Store) (npcId : String) :
      RenameFreeStep s (removeNpc s npcId)

/-- States reachable from the empty store through the module's operations. -/
def Reachable (s : Store) : Prop :=
  Relation.ReflTransGen Step emptyStore s

/-- States reachable without rename updates. -/
def ReachableRenameFree (s : Store) : Prop :=
  Relation.ReflTransGen RenameFreeStep emptyStore s

/-- At most one live entity per case-insensitive name. -/
def NamesUnique (s : Store) : Prop :=
  (s.entries.map (fun p => jsToLower p.2.meta.name)).Nodup

/-- Structural store invariant: ids are unique keys and every live id was
allocated at some point. -/
def StoreWF (s : Store) : Prop :=
  (s.entries.map (fun p => p.1)).Nodup ∧
    ∀ id ∈ s.entries.map (fun p => p.1), id ∈ s.allocated

/-- An id that has been allocated but is no longer live; registration can
never rebind it because fresh ids avoid everything allocated. -/
def DeadId (s : Store) (id : String) : Prop :=
  id ∈ s.allocated ∧ id ∉ s.entries.map (fun p => p.1)

/-! ## Normalizer layer: a model of the JavaScript values the ingestion
normalizer manipulates.

`jarr` carries the array elements plus the extra non-index string
properties JS allows on array objects (the normalizer writes such
properties when the singular `relationship` field is folded into a
`relationships` value that is still an array; `Array.isArray` conversion
then iterates the elements only, dropping those properties).  Numbers are
exact rationals.  Index-valued keys written onto arrays are modelled as
plain properties (the theorems below never exercise that corner). -/
inductive JVal where
  | jnull
  | jbool (b : Bool)
  | jnum (q : Rat)
  | jstr (s : String)
  | jarr (items : List JVal) (props : List (String × JVal))
  | jobj (entries : List (String × JVal))

/-- JS truthiness. -/
def jsTruthy : JVal → Bool
  | JVal.jnull => false
  | JVal.jbool b => b
  | JVal.jnum q => !(q == 0)
  | JVal.jstr s => !(s == "")
  | JVal.jarr _ _ => true
  | JVal.jobj _ => true

/-- Truthiness of a possibly-undefined value. -/
def jsTruthyOpt : Option JVal → Bool
  | none => false
  | some v => jsTruthy v

/-- Model of `typeof v === 'object'` (arrays and `null` included). -/
def typeofObject : JVal → Bool
  | JVal.jnull => true
  | JVal.jarr _ _ => true
  | JVal.jobj _ => true
  | _ => false

/-- Model of `typeof v === 'object' && v !== null`. -/
def typeofObjectNotNull : JVal → Bool
  | JVal.jarr _ _ => true
  | JVal.jobj _ => true
  | _ => false

/-- Model of `typeof v === 'string'`. -/
def typeofString : JVal → Bool
  | JVal.jstr _ => true
  | _ => false

/-- Property read `v[key]` (`undefined` = `none`).  For arrays, canonical
index keys read the element, other keys the extra properties; for strings,
index keys read the character. -/
def jsGet (v : JVal) (key : String) : Option JVal :=
  match v with
  | JVal.jobj l => (l.find? (fun p => p.1 == key)).map (fun p => p.2)
  | JVal.jarr items props =>
    match (List.range items.length).find? (fun i => key == toString i) with
    | some i => items.get? i
    | none => (props.find? (fun p => p.1 == key)).map (fun p => p.2)
  | JVal.jstr s =>
    match (List.range s.length).find? (fun i => key == toString i) with
    | some i => (s.data.get? i).map (fun c => JVal.jstr (String.mk [c]))
    | none => none
  | _ => none

/-- Property write `v[key] = w`: objects update in place or append (JS
property-order semantics for non-index keys); arrays update/append the
extra properties; writes to primitives are silently discarded (non-strict
mode). -/
def jsSet (v : JVal) (key : String) (w : JVal) : JVal :=
  match v with
  | JVal.jobj l =>
    if l.any (fun p => p.1 == key) then
      JVal.jobj (l.map (fun p => if p.1 == key then (p.1, w) else p))
    else JVal.jobj (l ++ [(key, w)])
  | JVal.jarr items props =>
    if props.any (fun p => p.1 == key) then
      JVal.jarr items (props.map (fun p => if p.1 == key then (p.1, w) else p))
    else JVal.jarr items (props ++ [(key, w)])
  | other => other

/-- Model of `Object.keys` (for strings: the index keys, as used by the
`Object.keys(enhancedData.relationships).length === 0` guards when the
`relationships` value is still a string). -/
def jsKeys : JVal → List String
  | JVal.jobj l => l.map (fun p => p.1)
  | JVal.jarr items props => (List.range items.length).map toString ++ props.map (fun p => p.1)
  | JVal.jstr s => (List.range s.length).map toString
  | _ => []

/-- Model of `Object.entries`. -/
def jsEntries : JVal → List (String × JVal)
  | JVal.jobj l => l
  | JVal.jarr items props => (items.enum.map (fun p => (toString p.1, p.2))) ++ props
  | JVal.jstr s => s.data.enum.map (fun p => (toString p.1, JVal.jstr (String.mk [p.2])))
  | _ => []

/-- The ASCII whitespace matched by `\s` / trimmed by `String.prototype.trim`. -/
def isJsSpace (c : Char) : Bool :=
  [32, 9, 10, 13, 11, 12].contains c.toNat

/-- Model of `s.trim()`. -/
def jsTrim (s : String) : String :=
  String.mk (((s.data.dropWhile isJsSpace).reverse.dropWhile isJsSpace).reverse)

/-- Does `text` start with `pat`? -/
def listStartsWith : List Char → List Char → Bool
  | [], _ => true
  | _ :: _, [] => false
  | p :: ps, c :: cs => p == c && listStartsWith ps cs

/-- Does `text` contain `pat` as a contiguous substring (`String.includes`)? -/
def listContainsSub (pat : List Char) : List Char → Bool
  | [] => listStartsWith pat []
  | c :: cs => listStartsWith pat (c :: cs) || listContainsSub pat cs

/-- The two-character sequence `\"` tested by
`relationship.includes('\\\"')`. -/
def escSeq : List Char := ['\\', '"']

/-- First index of substring `pat` in `s` (`String.indexOf`, defined when
present). -/
def jsIndexOfSub (pat : List Char) : List Char → Option Nat
  | [] => if listStartsWith pat [] then some 0 else none
  | c :: cs =>
    if listStartsWith pat (c :: cs) then some 0
    else (jsIndexOfSub pat cs).map (fun n => n + 1)

/-- Model of `s.replace(pat, '')` for a plain-string pattern: remove the first
occurrence only. -/
def jsRemoveFirst (pat : List Char) : List Char → List Char
  | [] => []
  | c :: cs =>
    if listStartsWith pat (c :: cs) then (c :: cs).drop pat.length
    else c :: jsRemoveFirst pat cs

/-- Model of `s.replace(/\\"/g, '"')`: rewrite every (non-overlapping, leftmost)
backslash-quote pair to a quote. -/
def stripEscapedQuotes : List Char → List Char
  | '\\' :: '"' :: rest => '"' :: stripEscapedQuotes rest
  | c :: rest => c :: stripEscapedQuotes rest
  | [] => []

/-- The cleanup `relationship.replace(/\\"/g, '"').replace(/\\/g, '')`
(part_004 lines 132, 254, 470). -/
def cleanRelStr (s : String) : String :=
  String.mk ((stripEscapedQuotes s.data).filter (fun c => !(c == '\\')))

/-- Model of `s.split(c)` for a single-character separator: split at every
occurrence, keeping empty segments. -/
def jsSplitCharAux (sep : Char) : List Char → List Char → List String
  | [], acc => [String.mk acc.reverse]
  | c :: cs, acc =>
    if c == sep then String.mk acc.reverse :: jsSplitCharAux sep cs []
    else jsSplitCharAux sep cs (c :: acc)

/-- Model of `s.split(c)`. -/
def jsSplitChar (sep : Char) (s : String) : List String :=
  jsSplitCharAux sep s.data []

mutual
/-- Model of `s.split(/[…]+/)`: a maximal run of separator characters is one
separation point; empty boundary segments are kept. -/
def jsSplitRunsAux (isSep : Char → Bool) : List Char → List Char → List String
  | [], acc => [String.mk acc.reverse]
  | c :: cs, acc =>
    if isSep c then String.mk acc.reverse :: jsSplitRunsSkip isSep cs
    else jsSplitRunsAux isSep cs (c :: acc)

/-- Skip the remainder of a separator run, then continue. -/
def jsSplitRunsSkip (isSep : Char → Bool) : List Char → List String
  | [] => [""]
  | c :: cs =>
    if isSep c then jsSplitRunsSkip isSep cs
    else jsSplitRunsAux isSep cs [c]
end

/-- Model of `s.split(/[…]+/)`. -/
def jsSplitRuns (isSep : Char → Bool) (s : String) : List String :=
  jsSplitRunsAux isSep s.data []

/-- Model of `[a-z]` of the CamelCase-boundary regex. -/
def isLowerAZ (c : Char) : Bool := 'a' ≤ c && c ≤ 'z'

/-- Model of `[A-Z]` of the CamelCase-boundary regex. -/
def isUpperAZ (c : Char) : Bool := 'A' ≤ c && c ≤ 'Z'

/-- Model of `s.split(/(?<=[a-z])(?=[A-Z])/)`: cut at each boundary where a
lowercase letter is followed by an uppercase letter. -/
def camelSplitAux : List Char → List Char → List String
  | [], acc => [String.mk acc.reverse]
  | c :: cs, acc =>
    match acc with
    | p :: _ =>
      if isLowerAZ p && isUpperAZ c then String.mk acc.reverse :: camelSplitAux cs [c]
      else camelSplitAux cs (c :: acc)
    | [] => camelSplitAux cs [c]

/-- Model of `s.split(/(?<=[a-z])(?=[A-Z])/)`. -/
def camelSplit (s : String) : List String :=
  camelSplitAux s.data []

/-- Model of `/[a-z][A-Z]/.test(s)`. -/
def hasCamelBoundary (s : String) : Bool :=
  (s.data.zip s.data.tail).any (fun p => isLowerAZ p.1 && isUpperAZ p.2)

/-- One match of the relationship-pair regex
`/"([^"]+)":\s*"([^"]*)"/` (part_004 line 140; the Strategy-1 variant of
line 258 requires a nonempty second group): the full matched text and the
two capture groups. -/
structure KVMatch where
  matched : String
  name : String
  status : String
deriving Repr, DecidableEq

/-- Try to match the pair regex at the start of `cs`; on success return the
match and the remaining characters.  The pattern is deterministic: each
`[^"]+`/`[^"]*` group extends to the next quote, and `\s*` is the maximal
whitespace run before a quote, so no backtracking arises. -/
def tryMatchKV (statusNonempty : Bool) (cs : List Char) : Option (KVMatch × List Char) :=
  match cs with
  | '"' :: rest =>
    let g1 := rest.takeWhile (fun c => !(c == '"'))
    if g1.isEmpty then none
    else
      match rest.drop g1.length with
      | '"' :: ':' :: r2 =>
        let ws := r2.takeWhile isJsSpace
        match r2.drop ws.length with
        | '"' :: r4 =>
          let g2 := r4.takeWhile (fun c => !(c == '"'))
          match r4.drop g2.length with
          | '"' :: r6 =>
            if statusNonempty && g2.isEmpty then none
            else
              some ({ matched := String.mk ('"' :: g1 ++ '"' :: ':' :: ws ++ '"' :: g2 ++ ['"']),
                      name := String.mk g1, status := String.mk g2 }, r6)
          | _ => none
        | _ => none
      | _ => none
  | _ => none

/-- All (leftmost, non-overlapping) matches of the pair regex, as produced
by repeated `exec` with the `g` flag (equivalently `String.match` with
`g`).  Fuel-driven; every step consumes at least one character. -/
def matchAllKVAux (statusNonempty : Bool) : Nat → List Char → List KVMatch
  | 0, _ => []
  | _, [] => []
  | fuel + 1, c :: cs =>
    match tryMatchKV statusNonempty (c :: cs) with
    | some (m, rest) => m :: matchAllKVAux statusNonempty fuel rest
    | none => matchAllKVAux statusNonempty fuel cs

/-- All matches of the pair regex over a string. -/
def regexFindKVPairs (statusNonempty : Bool) (s : String) : List KVMatch :=
  matchAllKVAux statusNonempty (s.length + 1) s.data

/-- First match of the pair regex (`String.match` without `g`). -/
def regexFirstKV (statusNonempty : Bool) (s : String) : Option KVMatch :=
  (regexFindKVPairs statusNonempty s).head?

/-! ### JSON.parse model (used by the Method-2 fallbacks and the
brace-delimited merge branch). -/

/-- JSON insignificant whitespace. -/
def isJsonWs (c : Char) : Bool :=
  [32, 9, 10, 13].contains c.toNat

/-- Hex digit value. -/
def hexVal (c : Char) : Option Nat :=
  let n := c.toNat
  if 48 ≤ n && n ≤ 57 then some (n - 48)
  else if 65 ≤ n && n ≤ 70 then some (n - 55)
  else if 97 ≤ n && n ≤ 102 then some (n - 87)
  else none

/-- Is there a hex digit? -/
def isHexDigit (c : Char) : Bool := (hexVal c).isSome

/-- The short JSON escapes (quote, backslash, solidus, and the control
abbreviations), as code-point translations. -/
def jsonSimpleEscape (e : Char) : Option Char :=
  let n := e.toNat
  if n == 34 || n == 92 || n == 47 then some e
  else if n == 98 then some (Char.ofNat 8)
  else if n == 102 then some (Char.ofNat 12)
  else if n == 110 then some (Char.ofNat 10)
  else if n == 114 then some (Char.ofNat 13)
  else if n == 116 then some (Char.ofNat 9)
  else none

/-- Body of a JSON string literal after the opening quote; strict JSON:
no raw control characters, only the canonical escape set. -/
def jsonStringAux : List Char → List Char → Option (String × List Char)
  | '"' :: rest, acc => some (String.mk acc.reverse, rest)
  | '\\' :: e :: rest, acc =>
    if e == 'u' then
      match rest with
      | h1 :: h2 :: h3 :: h4 :: rest' =>
        match hexVal h1, hexVal h2, hexVal h3, hexVal h4 with
        | some a, some b, some c, some d =>
          jsonStringAux rest' (Char.ofNat (((a * 16 + b) * 16 + c) * 16 + d) :: acc)
        | _, _, _, _ => none
      | _ => none
    else
      match jsonSimpleEscape e with
      | some ch => jsonStringAux rest (ch :: acc)
      | none => none
  | c :: rest, acc => if c.toNat < 32 then none else jsonStringAux rest (c :: acc)
  | [], _ => none

/-- Decimal digits prefix. -/
def takeDigits (cs : List Char) : List Char × List Char :=
  (cs.takeWhile (fun c => c.isDigit), cs.dropWhile (fun c => c.isDigit))

/-- Digits to a natural number. -/
def digitsToNat (ds : List Char) : Nat :=
  ds.foldl (fun n c => n * 10 + (c.toNat - '0'.toNat)) 0

/-- A JSON number (strict grammar: optional minus, `0` or a nonzero-led
integer part, optional fraction, optional exponent), evaluated exactly as
a rational. -/
def jsonParseNumber (cs : List Char) : Option (Rat × List Char) :=
  let (neg, cs1) := match cs with | '-' :: r => (true, r) | r => (false, r)
  let intOk : Option (List Char × List Char) :=
    match cs1 with
    | '0' :: r => some (['0'], r)
    | c :: _ =>
      if c.isDigit then
        let (ds, r) := takeDigits cs1
        some (ds, r)
      else none
    | [] => none
  match intOk with
  | none => none
  | some (intDs, cs2) =>
    let fracPart : Option (List Char × List Char) :=
      match cs2 with
      | '.' :: r =>
        let (ds, r') := takeDigits r
        if ds.isEmpty then none else some (ds, r')
      | r => some ([], r)
    match fracPart with
    | none => none
    | some (fracDs, cs3) =>
      let expPart : Option (Int × List Char) :=
        match cs3 with
        | 'e' :: r | 'E' :: r =>
          let (esign, r1) := match r with | '+' :: r' => (1, r') | '-' :: r' => (-1, r') | r' => (1, r')
          let (ds, r2) := takeDigits r1
          if ds.isEmpty then none else some ((esign : Int) * (digitsToNat ds : Int), r2)
        | r => some (0, r)
      match expPart with
      | none => none
      | some (e, cs4) =>
        let mantissa : Int := (digitsToNat (intDs ++ fracDs) : Int)
        let mantissa := if neg then -mantissa else mantissa
        let scale : Int := e - (fracDs.length : Int)
        let q : Rat :=
          if 0 ≤ scale then (mantissa : Rat) * (10 : Rat) ^ scale.toNat
          else (mantissa : Rat) / (10 : Rat) ^ (-scale).toNat
        some (q, cs4)

mutual
/-- Parse one JSON value (leading whitespace allowed). -/
def jsonParseValue : Nat → List Char → Option (JVal × List Char)
  | 0, _ => none
  | fuel + 1, cs =>
    match cs.dropWhile isJsonWs with
    | '{' :: rest => jsonParseMembers fuel (JVal.jobj []) rest true
    | '[' :: rest => jsonParseElements fuel [] rest true
    | '"' :: rest => (jsonStringAux rest []).map (fun p => (JVal.jstr p.1, p.2))
    | 't' :: 'r' :: 'u' :: 'e' :: rest => some (JVal.jbool true, rest)
    | 'f' :: 'a' :: 'l' :: 's' :: 'e' :: rest => some (JVal.jbool false, rest)
    | 'n' :: 'u' :: 'l' :: 'l' :: rest => some (JVal.jnull, rest)
    | cs' => (jsonParseNumber cs').map (fun p => (JVal.jnum p.1, p.2))

/-- Parse the members of an object after `{`; duplicate keys overwrite in
place (last value wins, first position kept), matching `JSON.parse`. -/
def jsonParseMembers : Nat → JVal → List Char → Bool → Option (JVal × List Char)
  | 0, _, _, _ => none
  | fuel + 1, acc, cs, isFirst =>
    match cs.dropWhile isJsonWs with
    | '}' :: rest => if isFirst then some (acc, rest) else none
    | '"' :: rest =>
      match jsonStringAux rest [] with
      | none => none
      | some (key, cs1) =>
        match cs1.dropWhile isJsonWs with
        | ':' :: cs2 =>
          match jsonParseValue fuel cs2 with
          | none => none
          | some (v, cs3) =>
            let acc' := jsSet acc key v
            match cs3.dropWhile isJsonWs with
            | ',' :: cs4 => jsonParseMembers fuel acc' cs4 false
            | '}' :: cs4 => some (acc', cs4)
            | _ => none
        | _ => none
    | _ => none

/-- Parse the elements of an array after `[`. -/
def jsonParseElements : Nat → List JVal → List Char → Bool → Option (JVal × List Char)
  | 0, _, _, _ => none
  | fuel + 1, acc, cs, isFirst =>
    match cs.dropWhile isJsonWs with
    | ']' :: rest => if isFirst then some (JVal.jarr acc.reverse [], rest) else none
    | cs' =>
      match jsonParseValue fuel cs' with
      | none => none
      | some (v, cs1) =>
        match cs1.dropWhile isJsonWs with
        | ',' :: cs2 => jsonParseElements fuel (v :: acc) cs2 false
        | ']' :: cs2 => some (JVal.jarr (v :: acc).reverse [], cs2)
        | _ => none
end

/-- Model of `JSON.parse`: parse one value and require only whitespace to follow;
`none` models the thrown `SyntaxError`. -/
def jsonParse (s : String) : Option JVal :=
  match jsonParseValue (2 * s.length + 4) s.data with
  | some (v, rest) => if (rest.dropWhile isJsonWs).isEmpty then some v else none
  | none => none

/-! ### The ingestion normalizer (the normalization segment of
`initializeNpc`, part_004 lines 56–714). -/

/-- Insert an extracted `(name, status)` string pair after trimming, only
when both are nonempty (`if (name && status)`). -/
def insertPairTrim (rels : JVal) (name status : String) : JVal :=
  let n := jsTrim name
  let st := jsTrim status
  if !(n == "") && !(st == "") then jsSet rels n (JVal.jstr st) else rels

/-- Method 1 (part_004 lines 140–153 and 478–491): run the global pair
regex (second group possibly empty) over the cleaned string, inserting
each trimmed nonempty pair; also report whether any match occurred. -/
def method1Apply (clean : String) (rels : JVal) : JVal × Bool :=
  let ms := regexFindKVPairs false clean
  (ms.foldl (fun r m => insertPairTrim r m.name m.status) rels, !ms.isEmpty)

/-- Method 2 (part_004 lines 160–173 and 498–511): wrap the cleaned string
in braces, `JSON.parse` it, and insert every entry whose key is nonempty
and whose value is truthy; `none` when the parse throws. -/
def method2Apply (clean : String) (rels : JVal) : Option JVal :=
  match jsonParse ("\x7b" ++ clean ++ "\x7d") with
  | none => none
  | some jsonObj =>
    some ((jsEntries jsonObj).foldl (fun r p =>
      if !(p.1 == "") && jsTruthy p.2 then jsSet r p.1 p.2 else r) rels)

/-- The quote-aware comma split of Method 3 (part_004 lines 184–207):
split on commas outside quotes; the final segment is pushed only when
nonempty. -/
def smartCommaSplitAux : List Char → Bool → List Char → List String
  | [], _, cur => if cur.isEmpty then [] else [String.mk cur.reverse]
  | c :: cs, inQ, cur =>
    if c == '"' then smartCommaSplitAux cs (!inQ) (c :: cur)
    else if c == ',' && !inQ then String.mk cur.reverse :: smartCommaSplitAux cs inQ []
    else smartCommaSplitAux cs inQ (c :: cur)

/-- The quote-aware comma split of Method 3. -/
def smartCommaSplit (s : String) : List String :=
  smartCommaSplitAux s.data false []

/-- Separator class `[":\\]` of the simple splits (part_004 lines 226,
279, 564, 581). -/
def isRelSep (c : Char) : Bool :=
  c == '"' || c == ':' || c == '\\'

/-- Per-segment processing of Method 3 (part_004 lines 212–239 and
550–577): first match of the strict pair regex, else the first two
sub-parts of the simple split whose trim is nonempty. -/
def method3Part (rels : JVal) (part : String) : JVal :=
  match regexFirstKV true part with
  | some m => insertPairTrim rels m.name m.status
  | none =>
    let subParts := (jsSplitRuns isRelSep part).filter (fun p => !(jsTrim p == ""))
    match subParts with
    | s0 :: s1 :: _ => insertPairTrim rels s0 s1
    | _ => rels

/-- Method 4 (part_004 lines 579–593, Unreal branch only): simple split of
the whole cleaned string, taking the first two usable parts. -/
def method4Apply (clean : String) (rels : JVal) : JVal :=
  let parts := (jsSplitRuns isRelSep clean).filter (fun p => !(jsTrim p == ""))
  match parts with
  | p0 :: p1 :: _ => insertPairTrim rels p0 p1
  | _ => rels

/-- The escaped-quote block of the singular-string branch (part_004 lines
128–246): clean, Method 1, and if the regex matched nothing, Method 2,
falling back to Method 3 when the cleaned string contains a comma (this
block has no Method 4). -/
def escBlockApply (relationship : String) (rels : JVal) : JVal :=
  let clean := cleanRelStr relationship
  let m1 := method1Apply clean rels
  if m1.2 then m1.1
  else
    match method2Apply clean m1.1 with
    | some r => r
    | none =>
      if jsContainsChar clean ',' then (smartCommaSplit clean).foldl method3Part m1.1
      else m1.1

/-- The Unreal-format block (part_004 lines 468–595): same as the
escaped-quote block, plus Method 4 when the cleaned string has no comma. -/
def unrealBlockApply (relationship : String) (rels : JVal) : JVal :=
  let clean := cleanRelStr relationship
  let m1 := method1Apply clean rels
  if m1.2 then m1.1
  else
    match method2Apply clean m1.1 with
    | some r => r
    | none =>
      if jsContainsChar clean ',' then (smartCommaSplit clean).foldl method3Part m1.1
      else method4Apply clean m1.1

/-- Strategy 1 (part_004 lines 249–272): over the cleaned string, take
every match of the strict pair regex, split the matched text on `':'`, and
when that yields exactly two parts, insert them with all quotes removed
and trimmed. -/
def strategy1Apply (relationship : String) (rels : JVal) : JVal :=
  let clean := cleanRelStr relationship
  let ms := regexFindKVPairs true clean
  ms.foldl (fun r m =>
    match jsSplitChar ':' m.matched with
    | [p0, p1] =>
      let name := jsTrim (String.mk (p0.data.filter (fun c => !(c == '"'))))
      let status := jsTrim (String.mk (p1.data.filter (fun c => !(c == '"'))))
      if !(name == "") && !(status == "") then jsSet r name (JVal.jstr status) else r
    | _ => r) rels

/-- Fold adjacent parts into name/status pairs (part_004 lines 283–293):
when the pair is inserted the loop skips the consumed status (`i++`),
otherwise it advances by one (the parts are pre-filtered nonempty, so the
insertion guard in fact always fires). -/
def pairFold : List String → JVal → JVal
  | n :: st :: restL, r =>
    if !(n == "") && !(st == "") then pairFold restL (jsSet r n (JVal.jstr st))
    else pairFold (st :: restL) r
  | _, r => r
termination_by l => l.length

/-- Strategy 2 (part_004 lines 275–294): simple split of the raw singular
string, trimmed and filtered, folded into adjacent pairs. -/
def strategy2Apply (relationship : String) (rels : JVal) : JVal :=
  let parts := ((jsSplitRuns isRelSep relationship).map jsTrim).filter (fun p => p.length > 0)
  pairFold parts rels

/-- The singular-string branch (part_004 lines 120–298): the escaped-quote
block when the raw string contains `\"`; then Strategy 1 (escaped quotes,
only while `relationships` has no keys); then Strategy 2 (only while
`relationships` has no keys). -/
def singularStringApply (relationship : String) (rels0 : JVal) : JVal :=
  let rels1 :=
    if listContainsSub escSeq relationship.data then escBlockApply relationship rels0 else rels0
  let rels2 :=
    if (jsKeys rels1).length == 0 && listContainsSub escSeq relationship.data then
      strategy1Apply relationship rels1
    else rels1
  if (jsKeys rels2).length == 0 then strategy2Apply relationship rels2 else rels2

/-- The singular-object branch (part_004 lines 81–119): either the
`{type: 'object', value: {...}}` wrapper format, or a direct object whose
string values (and nested objects' string values) are folded in, skipping
the `type`/`isArray` metadata keys. -/
def singularObjectApply (relationship : JVal) (rels0 : JVal) : JVal :=
  let typeIsObject :=
    match jsGet relationship "type" with
    | some (JVal.jstr t) => t == "object"
    | _ => false
  let value? := jsGet relationship "value"
  if typeIsObject && jsTruthyOpt value? && (match value? with
      | some v => typeofObject v
      | none => false) then
    match value? with
    | some v =>
      (jsEntries v).foldl (fun r p =>
        if !(p.1 == "") && jsTruthy p.2 then jsSet r p.1 p.2 else r) rels0
    | none => rels0
  else
    (jsEntries relationship).foldl (fun r p =>
      if p.1 == "type" || p.1 == "isArray" then r
      else
        match p.2 with
        | JVal.jstr v => jsSet r p.1 (JVal.jstr v)
        | JVal.jobj _ | JVal.jarr _ _ =>
          (jsEntries p.2).foldl (fun r2 q =>
            match q.2 with
            | JVal.jstr v => jsSet r2 q.1 (JVal.jstr v)
            | _ => r2) r
        | _ => r) rels0

/-- Model of `parseInt(key)` is `NaN`: after optional whitespace and sign there is
no leading decimal digit, or a bare `0x`/`0X` prefix with no hex digit. -/
def jsParseIntNaN (s : String) : Bool :=
  let cs := s.data.dropWhile isJsSpace
  let cs := match cs with
    | '+' :: r => r
    | '-' :: r => r
    | r => r
  match cs with
  | [] => true
  | '0' :: x :: r =>
    if x == 'x' || x == 'X' then
      !(match r with
        | c :: _ => isHexDigit c
        | [] => false)
    else false
  | c :: _ => !c.isDigit

/-- Conversion of one array element during the array→object pass
(part_004 lines 312–327): merge object entries; split `"key:value"`
strings on every colon with trimming. -/
def arrayItemFold (acc : JVal) (rel : JVal) : JVal :=
  match rel with
  | JVal.jobj _ | JVal.jarr _ _ =>
    (jsEntries rel).foldl (fun a p => jsSet a p.1 p.2) acc
  | JVal.jstr s =>
    match (jsSplitChar ':' s).map jsTrim with
    | p0 :: p1 :: _ => jsSet acc p0 (JVal.jstr p1)
    | _ => acc
  | _ => acc

/-- First pass of the numeric-keys conversion (part_004 lines 340–357):
for entries whose value is an object, adopt that object's first entry. -/
def pass1Step (acc : JVal) (p : String × JVal) : JVal :=
  match p.2 with
  | JVal.jobj _ | JVal.jarr _ _ =>
    match jsEntries p.2 with
    | q :: _ =>
      if !(q.1 == "") && jsTruthy q.2 then jsSet acc q.1 q.2 else acc
    | [] => acc
  | _ => acc

/-- Second pass (part_004 lines 361–379): copy string-valued entries
directly, flatten object-valued entries. -/
def pass2Step (acc : JVal) (p : String × JVal) : JVal :=
  match p.2 with
  | JVal.jstr v => jsSet acc p.1 (JVal.jstr v)
  | JVal.jobj _ | JVal.jarr _ _ =>
    (jsEntries p.2).foldl (fun a q => jsSet a q.1 q.2) acc
  | _ => acc

/-- Third pass (part_004 lines 383–411): for each `parseInt`-able key,
adopt the single entry of a one-key object value. -/
def pass3Step (rels : JVal) (acc : JVal) (key : String) : JVal :=
  match jsGet rels key with
  | some entry =>
    if typeofObjectNotNull entry && (jsKeys entry).length == 1 then
      match jsEntries entry with
      | q :: _ =>
        if !(q.1 == "") && jsTruthyOpt (jsGet entry q.1) then
          jsSet acc q.1 ((jsGet entry q.1).getD JVal.jnull)
        else acc
      | [] => acc
    else acc
  | none => acc

/-- The numeric-keys conversion (part_004 lines 332–418): three passes
building `relationshipObj`, adopted only when it is nonempty. -/
def numericKeysConvert (rels : JVal) : JVal :=
  let pass1 := (jsEntries rels).foldl pass1Step (JVal.jobj [])
  let pass2 :=
    if (jsKeys pass1).length == 0 then (jsEntries rels).foldl pass2Step pass1
    else pass1
  let pass3 :=
    if (jsKeys pass2).length == 0 then
      ((jsKeys rels).filter (fun k => !(jsParseIntNaN k))).foldl (pass3Step rels) pass2
    else pass2
  if (jsKeys pass3).length > 0 then pass3 else rels

/-- The `relationships`-object pass (part_004 lines 301–425): arrays are
folded element-wise into an object; maps with some `parseInt`-able key go
through the numeric-keys conversion; anything non-object (e.g. a string
that arrived in the plural field) is left untouched. -/
def processRelationshipsObject (rels : JVal) : JVal :=
  if typeofObject rels then
    match rels with
    | JVal.jarr items _ => items.foldl arrayItemFold (JVal.jobj [])
    | _ =>
      if (jsKeys rels).any (fun k => !(jsParseIntNaN k)) then numericKeysConvert rels
      else rels
  else rels

/-- The brace-delimited merge branch (part_004 lines 431–456): when the
(unescaped) singular string is `{…}`, `JSON.parse` it and add each entry
whose key is not already truthy in `relationships`. -/
def mergeJsonBranch (relationship : String) (rels : JVal) : JVal :=
  if relationship.data.head? == some '\x7b' && relationship.data.getLast? == some '\x7d' then
    match jsonParse relationship with
    | some robj =>
      if typeofObjectNotNull robj then
        (jsEntries robj).foldl (fun r p =>
          if !(jsTruthyOpt (jsGet r p.1)) then jsSet r p.1 p.2 else r) rels
      else rels
    | none => rels
  else rels

/-- Known item adjectives of the compound-item heuristic
(part_004 line 656). -/
def itemPrefixes : List String :=
  ["Unfinished", "Broken", "Rusty", "Ancient", "Magic", "Enchanted", "Small", "Large"]

/-- Known item nouns of the compound-item heuristic (part_004 line 657). -/
def itemTypes : List String :=
  ["Sword", "Axe", "Hammer", "Shield", "Bow", "Arrow", "Potion", "Scroll", "Gem", "Ring"]

/-- Map-trim-filter applied to every split result of the list fields
(part_004 lines 624–627 etc.). -/
def trimFilter (xs : List String) : List String :=
  (xs.map jsTrim).filter (fun x => x.length > 0)

/-- The compound-item fallback (part_004 lines 652–705): pull out
`Prefix + Type` compounds (removing each from the working string), split
the remainder at CamelCase boundaries, and when nothing was recognized use
the plain CamelCase split. -/
def compoundItemSplit (inputStr : String) : List String :=
  let state := itemPrefixes.foldl (fun (st : List String × String) pfx =>
    if listContainsSub pfx.data st.2.data then
      let prefixIndex := (jsIndexOfSub pfx.data st.2.data).getD 0
      let afterPrefix : String := String.mk (st.2.data.drop (prefixIndex + pfx.length))
      itemTypes.foldl (fun (st2 : List String × String) ity =>
        if listStartsWith ity.data afterPrefix.data then
          (st2.1 ++ [pfx ++ " " ++ ity],
           String.mk (jsRemoveFirst (pfx ++ ity).data st2.2.data))
        else st2) st
    else st) ([], inputStr)
  let processedItems :=
    if state.2.length > 0 then state.1 ++ trimFilter (camelSplit state.2)
    else state.1
  if processedItems.length > 0 then processedItems
  else trimFilter (camelSplit inputStr)

/-- The string→list conversion for `inventory`/`skills`
(part_004 lines 610–714): explicit separators, else CamelCase boundaries,
else whitespace, else the compound-item fallback. -/
def splitListString (inputStr : String) : List String :=
  if jsContainsChar inputStr ',' || jsContainsChar inputStr ';' || jsContainsChar inputStr '|' then
    trimFilter (jsSplitRuns (fun c => c == ',' || c == ';' || c == '|') inputStr)
  else if hasCamelBoundary inputStr then
    trimFilter (camelSplit inputStr)
  else if jsContainsChar inputStr ' ' then
    trimFilter (jsSplitRuns isJsSpace inputStr)
  else
    compoundItemSplit inputStr

/-- Normalization of one list-valued field (part_004 lines 610–713):
strings are split, absent or falsy values become `[]`, anything else is
left untouched. -/
def normalizeListField (v : Option JVal) : JVal :=
  match v with
  | some (JVal.jstr inputStr) => JVal.jarr ((splitListString inputStr).map JVal.jstr) []
  | some w => if jsTruthy w then w else JVal.jarr [] []
  | none => JVal.jarr [] []

/-- A registration payload, restricted to the fields the normalizer reads
or writes; `extra` carries all other metadata keys, untouched. -/
structure Payload where
  name : String
  relationship : Option JVal := none
  relationships : Option JVal := none
  inventory : Option JVal := none
  skills : Option JVal := none
  player_relationship : Option JVal := none
  extra : List (String × JVal) := []

/-- The default player-relationship record (part_004 lines 61–67). -/
def defaultPlayerRelationship : JVal :=
  JVal.jobj [("status", JVal.jstr "neutral"), ("affinity", JVal.jnum 50),
             ("trust", JVal.jnum 50), ("respect", JVal.jnum 50),
             ("history", JVal.jarr [] [])]

/-- The ingestion normalizer: the pure transformation `npcData ↦
enhancedData` performed by `initializeNpc` before storing
(part_004 lines 56–714). -/
def normalizeNpcData (npcData : Payload) : Payload :=
  let pr :=
    if jsTruthyOpt npcData.player_relationship then npcData.player_relationship
    else some defaultPlayerRelationship
  let rels0 : JVal :=
    match npcData.relationships with
    | some v => if jsTruthy v then v else JVal.jobj []
    | none => JVal.jobj []
  let rels1 :=
    match npcData.relationship with
    | some rel =>
      if jsTruthy rel then
        match rel with
        | JVal.jobj _ => singularObjectApply rel rels0
        | JVal.jarr _ _ => singularObjectApply rel rels0
        | JVal.jstr str => singularStringApply str rels0
        | _ => rels0
      else rels0
    | none => rels0
  let rels2 := processRelationshipsObject rels1
  let rels3 :=
    match npcData.relationship with
    | some (JVal.jstr str) =>
      if !(str == "") && !(listContainsSub escSeq str.data) then mergeJsonBranch str rels2
      else rels2
    | _ => rels2
  let afterUnreal : JVal × Option JVal :=
    match npcData.relationship with
    | some (JVal.jstr str) =>
      if !(str == "") && listContainsSub escSeq str.data then
        let r := unrealBlockApply str rels3
        (r, if (jsKeys r).length > 0 then none else npcData.relationship)
      else (rels3, npcData.relationship)
    | _ => (rels3, npcData.relationship)
  { npcData with
    player_relationship := pr,
    relationship := afterUnreal.2,
    relationships := some afterUnreal.1,
    inventory := some (normalizeListField npcData.inventory),
    skills := some (normalizeListField npcData.skills) }

/-! ## Concrete instances used by witnesses and counterexamples -/

/-- The spec's Blacksmith/Mayor scenario store. -/
def blacksmithStore : Store :=
  initializeNpc
    (initializeNpc emptyStore "id-b"
      { name := "Blacksmith", relationships := [("Mayor", "Respectful")] })
    "id-m" { name := "Mayor", relationships := [("Blacksmith", "Reliable")] }

/-- A two-entity store with a direct relationship in both directions and a
shared relationship-target name (`"Alfred"`). -/
def c3Store : Store :=
  initializeNpc
    (initializeNpc emptyStore "id-b"
      { name := "Blacksmith", relationships := [("Mayor", "Respectful"), ("Alfred", "Friends")] })
    "id-m" { name := "Mayor", relationships := [("Blacksmith", "Reliable"), ("Alfred", "Wary")] }

/-- A store whose only relationship edge points at the unregistered name
`"Dragon"`. -/
def futureEdgeStore : Store :=
  initializeNpc
    (initializeNpc emptyStore "id-b"
      { name := "Blacksmith", relationships := [("Dragon", "Feared")] })
    "id-i" { name := "Innkeeper", relationships := [] }

/-- A store reachable through two registrations and one renaming metadata
update, holding two live entities whose names agree case-insensitively. -/
def dupNameStore : Store :=
  updateNpcMetadata
    (initializeNpc (initializeNpc emptyStore "id-a" { name := "Mayor" })
      "id-b" { name := "Smith" })
    "id-b" { name := some "mayor" }

/-- A store with one entity and three appended messages. -/
def convStore : Store :=
  addMessage
    (addMessage
      (addMessage (initializeNpc emptyStore "id-c" { name := "Guard" })
        "id-c" "player" "hello" 1)
      "id-c" "npc" "hi there" 2)
    "id-c" "player" "bye" 3

/-- The payload whose canonical output still carries the singular
`relationship` field (an object is never deleted), refuting normalizer
idempotence: the first run drops `Bob` while converting the empty-array
`relationships`, the second run re-folds it in. -/
def idemP : Payload :=
  { name := "X",
    relationship := some (JVal.jobj [("Bob", JVal.jstr "Friend")]),
    relationships := some (JVal.jarr [] []) }

/-- The escaped relationship string of the spec scenario:
the characters `"Alfred\": \"Standoffish"`. -/
def escRelStr : String := "\"Alfred\\\": \\\"Standoffish\""

/-- The scenario payload as the claim states it: the **plural**
`relationships` field holds the escaped string. -/
def escP : Payload := { name := "X", relationships := some (JVal.jstr escRelStr) }

/-- The corrected scenario payload: the **singular** `relationship` field
holds the escaped string. -/
def escPS : Payload := { name := "X", relationship := some (JVal.jstr escRelStr) }

/-- A payload whose canonical output retains no singular `relationship`
field. -/
def idemWitnessP : Payload :=
  { name := "W", relationships := some (JVal.jobj [("Mayor", JVal.jstr "Respectful")]) }

/-- A payload carrying a partial `player_relationship` record. -/
def partialPrP : Payload :=
  { name := "Guard",
    player_relationship := some (JVal.jobj [("status", JVal.jstr "friendly")]) }

/-- A canonical `relationships` value: a flat name→label map whose values
are all strings (JS objects have no duplicate keys). -/
def flatStringMap : JVal → Prop
  | JVal.jobj l => (l.map Prod.fst).Nodup ∧ ∀ p ∈ l, ∃ v, p.2 = JVal.jstr v
  | _ => False

/-- A canonical list value: a plain array of strings with no extra
properties. -/
def flatStringList : JVal → Prop
  | JVal.jarr items props => props = [] ∧ ∀ x ∈ items, ∃ v, x = JVal.jstr v
  | _ => False

/-- The canonical shape the idempotence claim describes for the
normalizer's output: `relationships` a flat name→string map, `inventory`
and `skills` flat string lists, `player_relationship` present. -/
def CanonicalOutput (p : Payload) : Prop :=
  (∃ r, p.relationships = some r ∧ flatStringMap r) ∧
  (∃ i, p.inventory = some i ∧ flatStringList i) ∧
  (∃ k, p.skills = some k ∧ flatStringList k) ∧
  p.player_relationship.isSome = true

/-! ## Theorems -/

/-- C1 helper: the shared result tail evaluated on two resolved records. -/
theorem getNpcRelationship_ok_of_resolved (s : Store) (a b : String) (fut : Bool)
    (m1 m2 : NpcMeta) (h1 : resolveMeta s a = some m1) (h2 : resolveMeta s b = some m2) :
    getNpcRelationship s a b fut = RelResult.ok (mkRelInfo a b m1 m2) := by
  unfold getNpcRelationship
  rw [h1, h2]
  simp

/-- C1: for every pair of registered entities A and B (both identifiers
resolve), the pairwise lookup returns a result whose `is_mutual` flag is
`true` exactly when the A→B directed label and the B→A directed label are
both defined and equal. -/
theorem isMutual_iff_bothDefined_and_equal (s : Store) (a b : String) (fut : Bool)
    (m1 m2 : NpcMeta) (h1 : resolveMeta s a = some m1) (h2 : resolveMeta s b = some m2) :
    ∃ info, getNpcRelationship s a b fut = RelResult.ok info ∧
      (info.is_mutual = true ↔
        ∃ l, relLookup m1.relationships m2.name = some l ∧
             relLookup m2.relationships m1.name = some l) := by
  refine ⟨mkRelInfo a b m1 m2, getNpcRelationship_ok_of_resolved s a b fut m1 m2 h1 h2, ?_⟩
  show (relLookup m1.relationships m2.name == relLookup m2.relationships m1.name &&
        (relLookup m1.relationships m2.name).isSome) = true ↔ _
  cases hr1 : relLookup m1.relationships m2.name with
  | none => simp
  | some l1 =>
    cases hr2 : relLookup m2.relationships m1.name with
    | none => simp
    | some l2 =>
      simp only [beq_iff_eq, Option.isSome_some, Bool.and_true, Option.some.injEq,
        decide_eq_true_eq]
      constructor
      · intro h
        exact ⟨l1, rfl, h.symm⟩
      · rintro ⟨l, h1, h2⟩
        rw [h1, h2]

/-- C1 witness: at the concrete two-entity store both labels are defined
but unequal, so `is_mutual` is `false`. -/
theorem isMutual_iff_witness :
    ∃ info, getNpcRelationship
        (initializeNpc (initializeNpc emptyStore "id-b"
          { name := "Blacksmith", relationships := [("Mayor", "Respectful")] })
          "id-m" { name := "Mayor", relationships := [("Blacksmith", "Reliable")] })
        "Blacksmith" "Mayor" true = RelResult.ok info ∧
      (info.is_mutual = true ↔
        ∃ l, relLookup [("Mayor", "Respectful")] "Mayor" = some l ∧
             relLookup [("Blacksmith", "Reliable")] "Blacksmith" = some l) := by
  exact isMutual_iff_bothDefined_and_equal _ "Blacksmith" "Mayor" true
    { name := "Blacksmith", relationships := [("Mayor", "Respectful")] }
    { name := "Mayor", relationships := [("Blacksmith", "Reliable")] }
    (by decide) (by decide)

/-- C2: for every resolved pair, `is_conflicting` is `true` exactly when
both directed labels are defined and unequal. -/
theorem isConflicting_iff_bothDefined_and_unequal (s : Store) (a b : String) (fut : Bool)
    (m1 m2 : NpcMeta) (h1 : resolveMeta s a = some m1) (h2 : resolveMeta s b = some m2) :
    ∃ info, getNpcRelationship s a b fut = RelResult.ok info ∧
      (info.is_conflicting = true ↔
        ∃ l1 l2, relLookup m1.relationships m2.name = some l1 ∧
                 relLookup m2.relationships m1.name = some l2 ∧ l1 ≠ l2) := by
  refine ⟨mkRelInfo a b m1 m2, getNpcRelationship_ok_of_resolved s a b fut m1 m2 h1 h2, ?_⟩
  show (!(relLookup m1.relationships m2.name == relLookup m2.relationships m1.name) &&
        (relLookup m1.relationships m2.name).isSome &&
        (relLookup m2.relationships m1.name).isSome) = true ↔ _
  cases hr1 : relLookup m1.relationships m2.name with
  | none => simp
  | some l1 =>
    cases hr2 : relLookup m2.relationships m1.name with
    | none => simp
    | some l2 =>
      by_cases hl : l1 = l2
      · subst hl
        simp
      · simp only [beq_iff_eq, Option.isSome_some, Bool.and_true, Option.some.injEq]
        constructor
        · intro _
          exact ⟨l1, l2, rfl, rfl, hl⟩
        · intro _
          simp [hl]

/-- C2 witness: the Blacksmith/Mayor scenario — `aToB = "Respectful"`,
`bToA = "Reliable"`, `isMutual = false`, `isConflicting = true`. -/
theorem isConflicting_iff_witness :
    ∃ info, getNpcRelationship blacksmithStore "Blacksmith" "Mayor" true = RelResult.ok info ∧
      (info.is_conflicting = true ↔
        ∃ l1 l2, relLookup [("Mayor", "Respectful")] "Mayor" = some l1 ∧
                 relLookup [("Blacksmith", "Reliable")] "Blacksmith" = some l2 ∧ l1 ≠ l2) ∧
      info.npc1_to_npc2 = "Respectful" ∧ info.npc2_to_npc1 = "Reliable" ∧
      info.is_mutual = false ∧ info.is_conflicting = true := by
  obtain ⟨info, hok, hiff⟩ := isConflicting_iff_bothDefined_and_unequal
    blacksmithStore "Blacksmith" "Mayor" true
    { name := "Blacksmith", relationships := [("Mayor", "Respectful")] }
    { name := "Mayor", relationships := [("Blacksmith", "Reliable")] }
    (by decide) (by decide)
  have hconc : getNpcRelationship blacksmithStore "Blacksmith" "Mayor" true =
      RelResult.ok
        { npc1_id := "Blacksmith", npc2_id := "Mayor",
          npc1_name := "Blacksmith", npc2_name := "Mayor",
          npc1_to_npc2 := "Respectful", npc2_to_npc1 := "Reliable",
          is_mutual := false, is_conflicting := true,
          npc1_exists := true, npc2_exists := true,
          is_future_relationship := false } := by decide
  rw [hok] at hconc
  obtain rfl : info = _ := RelResult.ok.inj hconc
  exact ⟨_, hok, hiff, rfl, rfl, rfl, rfl⟩

/-- C6 counterexample: with the default `includeFutureRelationships = true`
and both identifiers unresolved, `getNpcRelationship` does **not** return
the explicit not-found record — it fabricates placeholders and returns a
normal result. -/
theorem getNpcRelationship_notFound_counterexample :
    resolveMeta emptyStore "Ghost" = none ∧
    resolveMeta emptyStore "Phantom" = none ∧
    getNpcRelationship emptyStore "Ghost" "Phantom" true =
      RelResult.ok
        { npc1_id := "Ghost", npc2_id := "Phantom",
          npc1_name := "Ghost", npc2_name := "Phantom",
          npc1_to_npc2 := "none", npc2_to_npc1 := "none",
          is_mutual := false, is_conflicting := false,
          npc1_exists := false, npc2_exists := false,
          is_future_relationship := true } := by
  refine ⟨rfl, rfl, by decide⟩

/-- C6 (amended): with `includeFutureRelationships = false` (the behavior
the claim describes, and the unconditional behavior of the
`contextManager.js` variant), an unresolved side always yields the typed
not-found record whose `npc1_found`/`npc2_found` flags name exactly which
side failed to resolve; the function is total, so no exception escapes. -/
theorem getNpcRelationship_notFound_amended (s : Store) (a b : String)
    (h : resolveMeta s a = none ∨ resolveMeta s b = none) :
    getNpcRelationship s a b false =
      RelResult.notFound (resolveMeta s a).isSome (resolveMeta s b).isSome a b := by
  unfold getNpcRelationship
  rcases h with h | h <;> simp [h]

/-- C6 witness: one registered entity, one unresolved name. -/
theorem getNpcRelationship_notFound_witness :
    getNpcRelationship blacksmithStore "Blacksmith" "Ghost" false =
      RelResult.notFound true false "Blacksmith" "Ghost" := by
  have h := getNpcRelationship_notFound_amended blacksmithStore "Blacksmith" "Ghost"
    (Or.inr (by decide))
  rw [h]
  decide

/-- C10: for a stored entity, `getConversationHistory` with limit `0`
returns the whole conversation list, and with limit `n > 0` it returns the
list's suffix of length `min n length` — the most recently appended
messages, in insertion order. -/
theorem getConversationHistory_last_n (s : Store) (npcId : String) (e : String × NpcEntry)
    (he : s.entries.find? (fun p => p.1 == npcId) = some e) :
    getConversationHistory s npcId 0 = some e.2.conversations ∧
    ∀ n : Nat, 0 < n →
      getConversationHistory s npcId n =
        some (e.2.conversations.drop (e.2.conversations.length - n)) ∧
      (e.2.conversations.drop (e.2.conversations.length - n)).length =
        min n e.2.conversations.length ∧
      (e.2.conversations.drop (e.2.conversations.length - n)) <:+ e.2.conversations := by
  unfold getConversationHistory
  rw [he]
  refine ⟨by simp, fun n hn => ⟨by simp [hn], ?_, List.drop_suffix _ _⟩⟩
  rw [List.length_drop]
  omega

/-- C10 witness: three appended messages, limit 2 returns exactly the last
two, in order. -/
theorem getConversationHistory_last_n_witness :
    getConversationHistory convStore "id-c" 2 =
      some [{ role := "npc", content := "hi there", timestamp := 2 },
            { role := "player", content := "bye", timestamp := 3 }] ∧
    getConversationHistory convStore "id-c" 0 =
      some [{ role := "player", content := "hello", timestamp := 1 },
            { role := "npc", content := "hi there", timestamp := 2 },
            { role := "player", content := "bye", timestamp := 3 }] := by
  have h := getConversationHistory_last_n convStore "id-c"
    ("id-c", { meta := { name := "Guard" },
               conversations := [{ role := "player", content := "hello", timestamp := 1 },
                                 { role := "npc", content := "hi there", timestamp := 2 },
                                 { role := "player", content := "bye", timestamp := 3 }] })
    (by decide)
  exact ⟨(h.2 2 (by decide)).1, h.1⟩

/-- Every entry a discovery-loop iteration appends satisfies: a direct
record excludes indirect records, and the other party is a registered
entity whose stored name the entry carries. -/
theorem discStep_entry_prop (s : Store) (tid : String) (t : NpcMeta)
    (acc : List DiscEntry × DiscStats) (oid : String) :
    ∀ e ∈ (discStep s tid t acc oid).1,
      e ∈ acc.1 ∨
        ((e.direct_relationship.isSome = true → e.indirect_relationships = none) ∧
         ∃ m, getNpcMetadata s e.npc_id = some m ∧ e.npc_name = m.name) := by
  intro e he
  simp only [discStep] at he
  split at he
  · exact Or.inl he
  · split at he
    · exact Or.inl he
    · rename_i otherNpc hother
      split at he
      · exact Or.inl he
      · rename_i rel hrel
        rw [List.mem_append] at he
        rcases he with he | he
        · exact Or.inl he
        · rw [List.mem_singleton] at he
          subst he
          by_cases hd :
              (!(rel.npc1_to_npc2 == "none") || !(rel.npc2_to_npc1 == "none")) = true
          · refine Or.inr ⟨?_, otherNpc, hother, ?_⟩ <;> simp [hd]
          · refine Or.inr ⟨?_, otherNpc, hother, ?_⟩ <;> simp [hd]

/-- Fold form of `discStep_entry_prop`. -/
theorem discFold_entry_prop (s : Store) (tid : String) (t : NpcMeta) :
    ∀ (ids : List String) (acc : List DiscEntry × DiscStats),
      ∀ e ∈ (ids.foldl (discStep s tid t) acc).1,
        e ∈ acc.1 ∨
          ((e.direct_relationship.isSome = true → e.indirect_relationships = none) ∧
           ∃ m, getNpcMetadata s e.npc_id = some m ∧ e.npc_name = m.name) := by
  intro ids
  induction ids with
  | nil => intro acc e he; exact Or.inl he
  | cons i rest ih =>
    intro acc e he
    rw [List.foldl_cons] at he
    rcases ih (discStep s tid t acc i) e he with h | h
    · exact discStep_entry_prop s tid t acc i e h
    · exact Or.inr h

/-- Every discovered entry of a successful discovery satisfies both
properties. -/
theorem discover_entry_prop (s : Store) (idf tid tname : String)
    (stats : DiscStats) (disc : List DiscEntry)
    (h : discoverNpcRelationships s idf = DiscResult.success tid tname stats disc) :
    ∀ e ∈ disc,
      (e.direct_relationship.isSome = true → e.indirect_relationships = none) ∧
        ∃ m, getNpcMetadata s e.npc_id = some m ∧ e.npc_name = m.name := by
  intro e he
  simp only [discoverNpcRelationships] at h
  split at h
  · exact DiscResult.noConfusion h
  · rename_i tid' targetNpc heq
    injection h with h1 h2 h3 h4
    subst h4
    rcases discFold_entry_prop s tid' targetNpc (s.entries.map (fun p => p.1)) _ e he with
      hmem | hprop
    · simp at hmem
    · exact hprop

/-- C3: single-entity discovery never reports an indirect link for a pair
that has a direct relationship (a direct record in an entry forces the
entry's indirect record to be `null`), even when the two entities share
common relationship-target names. -/
theorem discover_direct_excludes_indirect (s : Store) (idf tid tname : String)
    (stats : DiscStats) (disc : List DiscEntry)
    (h : discoverNpcRelationships s idf = DiscResult.success tid tname stats disc) :
    ∀ e ∈ disc, e.direct_relationship.isSome = true → e.indirect_relationships = none :=
  fun e he => (discover_entry_prop s idf tid tname stats disc h e he).1

/-- C3 witness: both entities share the target name `"Alfred"`, yet the
direct pair carries no indirect records. -/
theorem discover_direct_excludes_indirect_witness :
    (∃ m1, getNpcMetadata c3Store "id-b" = some m1 ∧
      m1.relationships.map Prod.fst = ["Mayor", "Alfred"]) ∧
    (∃ m2, getNpcMetadata c3Store "id-m" = some m2 ∧
      m2.relationships.map Prod.fst = ["Blacksmith", "Alfred"]) ∧
    ∀ e ∈ [({ npc_id := "id-m", npc_name := "Mayor",
              direct_relationship := some
                { target_to_other := "Respectful", other_to_target := "Reliable",
                  is_mutual := false, is_conflicting := true },
              indirect_relationships := none } : DiscEntry)],
      e.direct_relationship.isSome = true → e.indirect_relationships = none := by
  refine ⟨⟨{ name := "Blacksmith",
             relationships := [("Mayor", "Respectful"), ("Alfred", "Friends")] },
           by decide, by decide⟩,
          ⟨{ name := "Mayor",
             relationships := [("Blacksmith", "Reliable"), ("Alfred", "Wary")] },
           by decide, by decide⟩, ?_⟩
  exact discover_direct_excludes_indirect c3Store "Blacksmith" "id-b" "Blacksmith"
    { total_npcs := 1, direct_relationships := 1, indirect_relationships := 0,
      mutual_relationships := 0, conflicting_relationships := 1 } _ (by decide)

/-- One network-assembly step keeps the future bucket empty and keeps
every direct entry named after a registered entity, provided the processed
discovery entry refers to a registered entity. -/
theorem netStep_preserves (s : Store) (acc : Network) (rel : DiscEntry)
    (hrel : ∃ m, getNpcMetadata s rel.npc_id = some m ∧ rel.npc_name = m.name)
    (hfut : acc.future_relationships = [])
    (hdir : ∀ d ∈ acc.direct_relationships,
      ∃ id m, getNpcMetadata s id = some m ∧ d.name = m.name) :
    (netStep s acc rel).future_relationships = [] ∧
      ∀ d ∈ (netStep s acc rel).direct_relationships,
        ∃ id m, getNpcMetadata s id = some m ∧ d.name = m.name := by
  obtain ⟨m, hm, hname⟩ := hrel
  simp only [netStep, hm, Option.isNone_some, Option.map_some]
  cases hd : rel.direct_relationship with
  | some d =>
    simp only [Bool.false_eq_true, if_false]
    refine ⟨hfut, ?_⟩
    intro x hx
    rw [List.mem_append] at hx
    rcases hx with hx | hx
    · exact hdir x hx
    · rw [List.mem_singleton] at hx
      subst hx
      exact ⟨rel.npc_id, m, hm, hname⟩
  | none =>
    cases hi : rel.indirect_relationships with
    | some l => exact ⟨hfut, hdir⟩
    | none => exact ⟨hfut, hdir⟩

/-- Fold form of `netStep_preserves`. -/
theorem netFold_preserves (s : Store) :
    ∀ (disc : List DiscEntry) (acc : Network),
      (∀ e ∈ disc, ∃ m, getNpcMetadata s e.npc_id = some m ∧ e.npc_name = m.name) →
      acc.future_relationships = [] →
      (∀ d ∈ acc.direct_relationships,
        ∃ id m, getNpcMetadata s id = some m ∧ d.name = m.name) →
      (disc.foldl (netStep s) acc).future_relationships = [] ∧
        ∀ d ∈ (disc.foldl (netStep s) acc).direct_relationships,
          ∃ id m, getNpcMetadata s id = some m ∧ d.name = m.name := by
  intro disc
  induction disc with
  | nil => intro acc _ hfut hdir; exact ⟨hfut, hdir⟩
  | cons rel rest ih =>
    intro acc hdisc hfut hdir
    rw [List.foldl_cons]
    obtain ⟨hfut', hdir'⟩ := netStep_preserves s acc rel
      (hdisc rel (List.mem_cons_self rel rest)) hfut hdir
    exact ih (netStep s acc rel)
      (fun e he => hdisc e (List.mem_cons_of_mem rel he)) hfut' hdir'

/-- C4 (amended): the future bucket of every assembled network is empty —
discovery only ever examines registered entities, so network assembly
never classifies an entry as future — and every direct entry names a
registered entity; hence an edge whose target name resolves to no
registered entity is reported in neither bucket. -/
theorem network_future_empty_and_direct_registered (s : Store) (idf : String)
    (net : Network) (h : getNpcRelationshipNetwork s idf = some net) :
    net.future_relationships = [] ∧
      ∀ d ∈ net.direct_relationships,
        ∃ id m, getNpcMetadata s id = some m ∧ d.name = m.name := by
  unfold getNpcRelationshipNetwork at h
  split at h
  · exact Option.noConfusion h
  · rename_i tid tname stats disc hdisc
    obtain rfl : _ = net := Option.some.inj h
    exact netFold_preserves s disc _
      (fun e he => (discover_entry_prop s idf tid tname stats disc hdisc e he).2)
      rfl (by intro d hd; simp at hd)

/-- C4 counterexample: the Blacksmith's edge to the unregistered name
`"Dragon"` is reported in **no** bucket — contrary to the claim, the
future bucket is empty (and the edge is absent from the direct bucket as
well, the entire network being empty). -/
theorem network_future_counterexample :
    findNpcByName futureEdgeStore "Dragon" = none ∧
    (∃ m, getNpcMetadata futureEdgeStore "id-b" = some m ∧
      objGet m.relationships "Dragon" = some "Feared") ∧
    getNpcRelationshipNetwork futureEdgeStore "Blacksmith" =
      some { direct_relationships := [], indirect_relationships := [],
             future_relationships := [] } := by
  refine ⟨by decide,
    ⟨{ name := "Blacksmith", relationships := [("Dragon", "Feared")] },
     by decide, by decide⟩, by decide⟩

/-- C4 witness: the amended theorem applied to the concrete store. -/
theorem network_future_empty_witness :
    ({ direct_relationships := [], indirect_relationships := [],
       future_relationships := [] } : Network).future_relationships = [] ∧
      ∀ d ∈ ({ direct_relationships := [], indirect_relationships := [],
               future_relationships := [] } : Network).direct_relationships,
        ∃ id m, getNpcMetadata futureEdgeStore id = some m ∧ d.name = m.name :=
  network_future_empty_and_direct_registered futureEdgeStore "Blacksmith" _ (by decide)

theorem mem_eq_of_nodup_map {α β : Type} (l : List α) (f : α → β)
    (hnd : (l.map f).Nodup) :
    ∀ x ∈ l, ∀ y ∈ l, f x = f y → x = y := by
  induction l with
  | nil =>
    intro x hx
    exact absurd hx (List.not_mem_nil x)
  | cons a rest ih =>
    rw [List.map_cons, List.nodup_cons] at hnd
    intro x hx y hy hf
    rcases List.mem_cons.mp hx with hxa | hxr <;>
      rcases List.mem_cons.mp hy with hya | hyr
    · rw [hxa, hya]
    · subst hxa
      exact absurd (hf ▸ List.mem_map_of_mem f hyr) hnd.1
    · subst hya
      exact absurd (hf ▸ List.mem_map_of_mem f hxr) hnd.1
    · exact ih hnd.2 x hxr y hyr hf

theorem keys_map_keyFixed (entries : List (String × NpcEntry))
    (f : String × NpcEntry → String × NpcEntry) (hf : ∀ p, (f p).1 = p.1) :
    (entries.map f).map (fun p => p.1) = entries.map (fun p => p.1) := by
  rw [List.map_map]
  exact List.map_congr_left (fun p _ => hf p)

theorem names_map_nameFixed (entries : List (String × NpcEntry))
    (f : String × NpcEntry → String × NpcEntry)
    (hf : ∀ p, (f p).2.meta.name = p.2.meta.name) :
    (entries.map f).map (fun p => jsToLower p.2.meta.name) =
      entries.map (fun p => jsToLower p.2.meta.name) := by
  rw [List.map_map]
  exact List.map_congr_left (fun p _ => by simp [Function.comp, hf p])

theorem getNpcMetadata_eq_none_of_not_mem (s : Store) (id : String)
    (h : id ∉ s.entries.map (fun p => p.1)) : getNpcMetadata s id = none := by
  unfold getNpcMetadata
  rw [List.find?_eq_none.mpr]
  · rfl
  · intro p hp hpred
    rw [beq_iff_eq] at hpred
    exact h (hpred ▸ List.mem_map_of_mem (fun p => p.1) hp)

theorem initializeNpc_keys_allocated (s : Store) (newId : String) (meta : NpcMeta)
    (hfresh : newId ∉ s.allocated) (hwf : StoreWF s) :
    StoreWF (initializeNpc s newId meta) := by
  obtain ⟨hkeys, hsub⟩ := hwf
  unfold initializeNpc
  cases hfind : findNpcByName s meta.name with
  | none =>
    simp only
    constructor
    · rw [List.map_append, List.nodup_append]
      refine ⟨hkeys, List.nodup_singleton newId, ?_⟩
      intro x hx hy
      rw [List.map_cons, List.map_nil, List.mem_singleton] at hy
      subst hy
      exact hfresh (hsub x hx)
    · intro id hid
      rw [List.map_append, List.mem_append] at hid
      rw [List.mem_append]
      rcases hid with hid | hid
      · exact Or.inl (hsub id hid)
      · rw [List.map_cons, List.map_nil, List.mem_singleton] at hid
        subst hid
        exact Or.inr (List.mem_singleton_self id)
  | some p0 =>
    obtain ⟨oldId, oldMeta⟩ := p0
    simp only [removeNpc]
    have hsubl :
        List.Sublist ((s.entries.filter (fun p => !(p.1 == oldId))).map (fun p => p.1))
          (s.entries.map (fun p => p.1)) :=
      (List.filter_sublist s.entries).map _
    constructor
    · rw [List.map_append, List.nodup_append]
      refine ⟨hkeys.sublist hsubl, List.nodup_singleton newId, ?_⟩
      intro x hx hy
      rw [List.map_cons, List.map_nil, List.mem_singleton] at hy
      subst hy
      exact hfresh (hsub x (hsubl.subset hx))
    · intro id hid
      rw [List.map_append, List.mem_append] at hid
      rw [List.mem_append]
      rcases hid with hid | hid
      · exact Or.inl (hsub id (hsubl.subset hid))
      · rw [List.map_cons, List.map_nil, List.mem_singleton] at hid
        subst hid
        exact Or.inr (List.mem_singleton_self id)

theorem storeWF_step {s s' : Store} (hstep : Step s s') (hwf : StoreWF s) : StoreWF s' := by
  obtain ⟨hkeys, hsub⟩ := hwf
  cases hstep with
  | register newId meta hfresh =>
    exact initializeNpc_keys_allocated s newId meta hfresh ⟨hkeys, hsub⟩
  | update npcId u =>
    refine ⟨?_, ?_⟩ <;>
      rw [show (updateNpcMetadata s npcId u).entries.map (fun p => p.1) =
            s.entries.map (fun p => p.1) from
          keys_map_keyFixed _ _ (fun p => by simp only; split <;> rfl)]
    · exact hkeys
    · exact hsub
  | message npcId role content now =>
    refine ⟨?_, ?_⟩ <;>
      rw [show (addMessage s npcId role content now).entries.map (fun p => p.1) =
            s.entries.map (fun p => p.1) from
          keys_map_keyFixed _ _ (fun p => by simp only; split <;> rfl)]
    · exact hkeys
    · exact hsub
  | clearHistory npcId =>
    refine ⟨?_, ?_⟩ <;>
      rw [show (clearConversationHistory s npcId).entries.map (fun p => p.1) =
            s.entries.map (fun p => p.1) from
          keys_map_keyFixed _ _ (fun p => by simp only; split <;> rfl)]
    · exact hkeys
    · exact hsub
  | remove npcId =>
    have hsubl :
        List.Sublist ((s.entries.filter (fun p => !(p.1 == npcId))).map (fun p => p.1))
          (s.entries.map (fun p => p.1)) :=
      (List.filter_sublist s.entries).map _
    exact ⟨hkeys.sublist hsubl, fun id hid => hsub id (hsubl.subset hid)⟩

theorem namesUnique_initializeNpc (s : Store) (newId : String) (meta : NpcMeta)
    (hnu : NamesUnique s) (_hkeys : (s.entries.map (fun p => p.1)).Nodup) :
    NamesUnique (initializeNpc s newId meta) := by
  unfold NamesUnique at hnu ⊢
  unfold initializeNpc
  cases hfind : findNpcByName s meta.name with
  | none =>
    simp only
    rw [List.map_append, List.nodup_append]
    refine ⟨hnu, List.nodup_singleton _, ?_⟩
    intro x hx hy
    rw [List.map_cons, List.map_nil, List.mem_singleton] at hy
    subst hy
    obtain ⟨p, hp, hpx⟩ := List.mem_map.mp hx
    have hnone : s.entries.find? (fun p => jsToLower p.2.meta.name == jsToLower meta.name)
        = none := by
      unfold findNpcByName at hfind
      cases h : s.entries.find? (fun p => jsToLower p.2.meta.name == jsToLower meta.name) with
      | none => rfl
      | some q => rw [h] at hfind; exact Option.noConfusion hfind
    have := List.find?_eq_none.mp hnone p hp
    rw [beq_iff_eq] at this
    exact this (by rw [hpx])
  | some p0 =>
    obtain ⟨oldId, oldMeta⟩ := p0
    simp only [removeNpc]
    -- the entry the case-insensitive search found
    have hfind' : ∃ q, s.entries.find?
        (fun p => jsToLower p.2.meta.name == jsToLower meta.name) = some q ∧
        q.1 = oldId := by
      unfold findNpcByName at hfind
      cases h : s.entries.find? (fun p => jsToLower p.2.meta.name == jsToLower meta.name) with
      | none => rw [h] at hfind; exact Option.noConfusion hfind
      | some q =>
        rw [h] at hfind
        refine ⟨q, rfl, ?_⟩
        have := Option.some.inj hfind
        exact congrArg Prod.fst this
    obtain ⟨q, hq, hqid⟩ := hfind'
    have hqmem : q ∈ s.entries := List.mem_of_find?_eq_some hq
    have hqpred : jsToLower q.2.meta.name = jsToLower meta.name := by
      have := List.find?_some hq
      rwa [beq_iff_eq] at this
    have hsubl :
        List.Sublist ((s.entries.filter (fun p => !(p.1 == oldId))).map
            (fun p => jsToLower p.2.meta.name))
          (s.entries.map (fun p => jsToLower p.2.meta.name)) :=
      (List.filter_sublist s.entries).map _
    rw [List.map_append, List.nodup_append]
    refine ⟨hnu.sublist hsubl, List.nodup_singleton _, ?_⟩
    intro x hx hy
    rw [List.map_cons, List.map_nil, List.mem_singleton] at hy
    subst hy
    obtain ⟨p, hp, hpx⟩ := List.mem_map.mp hx
    rw [List.mem_filter] at hp
    obtain ⟨hpmem, hpkey⟩ := hp
    -- p has the same lowered name as q, so p = q by nodup of lowered names,
    -- contradicting that p survived the removal of q's key
    have hpq : p = q := by
      refine mem_eq_of_nodup_map s.entries (fun p => jsToLower p.2.meta.name) hnu
        p hpmem q hqmem ?_
      show jsToLower p.2.meta.name = jsToLower q.2.meta.name
      rw [hqpred]
      exact hpx
    subst hpq
    rw [hqid] at hpkey
    simp at hpkey

theorem namesUnique_renameFreeStep {s s' : Store} (hstep : RenameFreeStep s s')
    (hnu : NamesUnique s) (hwf : StoreWF s) : NamesUnique s' := by
  cases hstep with
  | register newId meta hfresh =>
    exact namesUnique_initializeNpc s newId meta hnu hwf.1
  | update npcId u hname =>
    unfold NamesUnique at hnu ⊢
    unfold updateNpcMetadata
    rw [names_map_nameFixed]
    · exact hnu
    · intro p
      simp only
      split
      · simp [applyMetaUpdate, hname]
      · rfl
  | message npcId role content now =>
    unfold NamesUnique at hnu ⊢
    unfold addMessage
    rw [names_map_nameFixed]
    · exact hnu
    · intro p
      simp only
      split <;> rfl
  | clearHistory npcId =>
    unfold NamesUnique at hnu ⊢
    unfold clearConversationHistory
    rw [names_map_nameFixed]
    · exact hnu
    · intro p
      simp only
      split <;> rfl
  | remove npcId =>
    unfold NamesUnique at hnu ⊢
    unfold removeNpc
    exact hnu.sublist ((List.filter_sublist s.entries).map _)

theorem renameFreeStep_step {s s' : Store} (h : RenameFreeStep s s') : Step s s' := by
  cases h with
  | register newId meta hfresh => exact Step.register s newId meta hfresh
  | update npcId u hname => exact Step.update s npcId u
  | message npcId role content now => exact Step.message s npcId role content now
  | clearHistory npcId => exact Step.clearHistory s npcId
  | remove npcId => exact Step.remove s npcId

theorem storeWF_empty : StoreWF emptyStore := by
  constructor
  · exact List.nodup_nil
  · intro id hid
    exact absurd hid (List.not_mem_nil id)

theorem storeWF_reachable {s : Store} (h : Reachable s) : StoreWF s := by
  induction h with
  | refl => exact storeWF_empty
  | tail _ hstep ih => exact storeWF_step hstep ih

theorem deadId_step {s s' : Store} (hstep : Step s s') (id : String)
    (hd : DeadId s id) : DeadId s' id := by
  obtain ⟨halloc, hlive⟩ := hd
  cases hstep with
  | register newId meta hfresh =>
    have hne : newId ≠ id := fun h => hfresh (h ▸ halloc)
    unfold initializeNpc
    cases hfind : findNpcByName s meta.name with
    | none =>
      simp only
      constructor
      · rw [List.mem_append]
        exact Or.inl halloc
      · rw [List.map_append, List.mem_append]
        rintro (h | h)
        · exact hlive h
        · rw [List.map_cons, List.map_nil, List.mem_singleton] at h
          exact hne h.symm
    | some p0 =>
      obtain ⟨oldId, oldMeta⟩ := p0
      simp only [removeNpc]
      constructor
      · rw [List.mem_append]
        exact Or.inl halloc
      · rw [List.map_append, List.mem_append]
        rintro (h | h)
        · exact hlive (((List.filter_sublist s.entries).map _).subset h)
        · rw [List.map_cons, List.map_nil, List.mem_singleton] at h
          exact hne h.symm
  | update npcId u =>
    refine ⟨halloc, ?_⟩
    rw [show (updateNpcMetadata s npcId u).entries.map (fun p => p.1) =
          s.entries.map (fun p => p.1) from
        keys_map_keyFixed _ _ (fun p => by simp only; split <;> rfl)]
    exact hlive
  | message npcId role content now =>
    refine ⟨halloc, ?_⟩
    rw [show (addMessage s npcId role content now).entries.map (fun p => p.1) =
          s.entries.map (fun p => p.1) from
        keys_map_keyFixed _ _ (fun p => by simp only; split <;> rfl)]
    exact hlive
  | clearHistory npcId =>
    refine ⟨halloc, ?_⟩
    rw [show (clearConversationHistory s npcId).entries.map (fun p => p.1) =
          s.entries.map (fun p => p.1) from
        keys_map_keyFixed _ _ (fun p => by simp only; split <;> rfl)]
    exact hlive
  | remove npcId =>
    exact ⟨halloc, fun h => hlive (((List.filter_sublist s.entries).map _).subset h)⟩

theorem deadId_reachable {s s' : Store} (h : Relation.ReflTransGen Step s s')
    (id : String) (hd : DeadId s id) : DeadId s' id := by
  induction h with
  | refl => exact hd
  | tail _ hstep ih => exact deadId_step hstep id ih

/-- C5 counterexample: the name-uniqueness invariant does not hold in every
reachable state — a metadata update carrying a `name` key renames an
entity onto an existing name, leaving two live entities whose names agree
case-insensitively. -/
theorem names_unique_counterexample :
    Reachable dupNameStore ∧ ¬ NamesUnique dupNameStore := by
  constructor
  · have h1 : Step emptyStore (initializeNpc emptyStore "id-a" { name := "Mayor" }) :=
      Step.register emptyStore "id-a" { name := "Mayor" } (by decide)
    have h2 : Step (initializeNpc emptyStore "id-a" { name := "Mayor" })
        (initializeNpc (initializeNpc emptyStore "id-a" { name := "Mayor" })
          "id-b" { name := "Smith" }) :=
      Step.register _ "id-b" { name := "Smith" } (by decide)
    have h3 : Step (initializeNpc (initializeNpc emptyStore "id-a" { name := "Mayor" })
        "id-b" { name := "Smith" }) dupNameStore :=
      Step.update _ "id-b" { name := some "mayor" }
    exact Relation.ReflTransGen.tail
      (Relation.ReflTransGen.tail
        (Relation.ReflTransGen.tail Relation.ReflTransGen.refl h1) h2) h3
  · unfold NamesUnique
    decide

/-- C5 (amended): (1) in every state reachable without renaming metadata
updates there is at most one live entity per case-insensitive name;
(2) unconditionally, registering an entity whose name case-insensitively
matches an existing one removes the prior entity, and — since generated
ids are never reused — every later lookup of the old id returns the
not-found outcome, in every subsequent state. -/
theorem store_names_unique_and_replacement :
    (∀ s : Store, ReachableRenameFree s → NamesUnique s) ∧
    (∀ (s : Store) (meta : NpcMeta) (newId oldId : String) (oldMeta : NpcMeta),
      Reachable s → findNpcByName s meta.name = some (oldId, oldMeta) →
      newId ∉ s.allocated →
      ∀ s', Relation.ReflTransGen Step (initializeNpc s newId meta) s' →
        getNpcMetadata s' oldId = none) := by
  constructor
  · intro s h
    have hh : NamesUnique s ∧ StoreWF s := by
      induction h with
      | refl => exact ⟨List.nodup_nil, storeWF_empty⟩
      | tail _ hstep ih =>
        exact ⟨namesUnique_renameFreeStep hstep ih.1 ih.2,
               storeWF_step (renameFreeStep_step hstep) ih.2⟩
    exact hh.1
  · intro s meta newId oldId oldMeta hreach hfind hfresh s' hsteps
    have hwf := storeWF_reachable hreach
    have hqmem : oldId ∈ s.entries.map (fun p => p.1) := by
      unfold findNpcByName at hfind
      cases h : s.entries.find? (fun p => jsToLower p.2.meta.name == jsToLower meta.name) with
      | none => rw [h] at hfind; exact Option.noConfusion hfind
      | some q =>
        rw [h] at hfind
        have hq1 : q.1 = oldId := congrArg Prod.fst (Option.some.inj hfind)
        exact hq1 ▸ List.mem_map_of_mem (fun p => p.1) (List.mem_of_find?_eq_some h)
    have halloc : oldId ∈ s.allocated := hwf.2 oldId hqmem
    have hne : newId ≠ oldId := fun h => hfresh (h ▸ halloc)
    have hdead : DeadId (initializeNpc s newId meta) oldId := by
      unfold initializeNpc
      rw [hfind]
      simp only [removeNpc]
      constructor
      · rw [List.mem_append]
        exact Or.inl halloc
      · rw [List.map_append, List.mem_append]
        rintro (h | h)
        · obtain ⟨p, hp, hpk⟩ := List.mem_map.mp h
          rw [List.mem_filter] at hp
          have hp2 := hp.2
          rw [hpk] at hp2
          simp at hp2
        · rw [List.map_cons, List.map_nil, List.mem_singleton] at h
          exact hne h.symm
    exact getNpcMetadata_eq_none_of_not_mem s' oldId
      (deadId_reachable hsteps oldId hdead).2

/-- C5 witness: the invariant at a concrete rename-free reachable store,
and a concrete replacement (`"Mayor"` replaced by `"MAYOR"`) after which
the old id no longer resolves. -/
theorem store_names_unique_witness :
    NamesUnique blacksmithStore ∧
    getNpcMetadata
      (initializeNpc (initializeNpc emptyStore "id-1" { name := "Mayor" })
        "id-2" { name := "MAYOR" }) "id-1" = none := by
  constructor
  · apply store_names_unique_and_replacement.1
    exact Relation.ReflTransGen.tail
      (Relation.ReflTransGen.tail Relation.ReflTransGen.refl
        (RenameFreeStep.register emptyStore "id-b"
          { name := "Blacksmith", relationships := [("Mayor", "Respectful")] } (by decide)))
      (RenameFreeStep.register _ "id-m"
        { name := "Mayor", relationships := [("Blacksmith", "Reliable")] } (by decide))
  · exact store_names_unique_and_replacement.2
      (initializeNpc emptyStore "id-1" { name := "Mayor" })
      { name := "MAYOR" } "id-2" "id-1" { name := "Mayor" }
      (Relation.ReflTransGen.tail Relation.ReflTransGen.refl
        (Step.register emptyStore "id-1" { name := "Mayor" } (by decide)))
      (by decide) (by decide) _ Relation.ReflTransGen.refl

/-- C9 counterexample: a payload that supplies a partial
`player_relationship` record is stored verbatim — the created entity's
record has no `affinity` (nor `trust`/`respect`) field, although the claim
says each is present, defaulted to 50 when absent from the payload. -/
theorem player_relationship_counterexample :
    (normalizeNpcData partialPrP).player_relationship =
      some (JVal.jobj [("status", JVal.jstr "friendly")]) ∧
    ((normalizeNpcData partialPrP).player_relationship.bind
      (fun pr => jsGet pr "affinity")) = none ∧
    ((normalizeNpcData partialPrP).player_relationship.bind
      (fun pr => jsGet pr "trust")) = none ∧
    ((normalizeNpcData partialPrP).player_relationship.bind
      (fun pr => jsGet pr "respect")) = none :=
  ⟨rfl, rfl, rfl, rfl⟩

/-- C9 (amended): the defaulting is per-record, not per-field — whenever
the registration payload has no (or a falsy) `player_relationship`, the
created entity carries the full default record, whose `affinity`, `trust`
and `respect` are all 50; a payload that supplies its own record has it
stored as-is, so the three fields are only present if the payload's record
contains them. -/
theorem player_relationship_default_amended (P : Payload)
    (h : jsTruthyOpt P.player_relationship = false) :
    (normalizeNpcData P).player_relationship = some defaultPlayerRelationship ∧
    jsGet defaultPlayerRelationship "affinity" = some (JVal.jnum 50) ∧
    jsGet defaultPlayerRelationship "trust" = some (JVal.jnum 50) ∧
    jsGet defaultPlayerRelationship "respect" = some (JVal.jnum 50) := by
  refine ⟨?_, rfl, rfl, rfl⟩
  simp only [normalizeNpcData, h]
  rfl

/-- C9 witness: a payload with no `player_relationship` at all. -/
theorem player_relationship_default_witness :
    (normalizeNpcData { name := "Guard" }).player_relationship =
      some defaultPlayerRelationship ∧
    jsGet defaultPlayerRelationship "affinity" = some (JVal.jnum 50) ∧
    jsGet defaultPlayerRelationship "trust" = some (JVal.jnum 50) ∧
    jsGet defaultPlayerRelationship "respect" = some (JVal.jnum 50) :=
  player_relationship_default_amended { name := "Guard" } rfl

/-- C8 counterexample: when the **plural** `relationships` field arrives as
the escaped string (exactly as the claim states), no branch of the
normalizer parses it — `relationships` is stored as the raw string, not as
the flat map `{"Alfred": "Standoffish"}`. -/
theorem relationships_string_counterexample :
    (normalizeNpcData escP).relationships = some (JVal.jstr escRelStr) ∧
    (normalizeNpcData escP).relationships ≠
      some (JVal.jobj [("Alfred", JVal.jstr "Standoffish")]) := by
  refine ⟨rfl, ?_⟩
  intro h
  rw [(rfl : (normalizeNpcData escP).relationships = some (JVal.jstr escRelStr))] at h
  exact JVal.noConfusion (Option.some.inj h)

/-- C8 (amended): it is the **singular** `relationship` field for which the
escaped string `"Alfred\": \"Standoffish"` normalizes to the flat map
`{"Alfred": "Standoffish"}` (and the singular field is then deleted). -/
theorem relationship_string_amended :
    (normalizeNpcData escPS).relationships =
      some (JVal.jobj [("Alfred", JVal.jstr "Standoffish")]) ∧
    (normalizeNpcData escPS).relationship = none :=
  ⟨rfl, rfl⟩

/-- C7 counterexample: `idemP`'s first normalization is canonical
(`relationships = {}` after the empty-array conversion dropped the entry
folded in from the singular object field, which itself is never deleted),
but a second normalization re-folds `Bob → Friend` in, so the result
differs. -/
theorem normalizer_idempotence_counterexample :
    CanonicalOutput (normalizeNpcData idemP) ∧
    normalizeNpcData (normalizeNpcData idemP) ≠ normalizeNpcData idemP := by
  constructor
  · refine ⟨⟨JVal.jobj [], rfl, List.nodup_nil, fun p hp => absurd hp (List.not_mem_nil p)⟩,
      ⟨JVal.jarr [] [], rfl, rfl, fun x hx => absurd hx (List.not_mem_nil x)⟩,
      ⟨JVal.jarr [] [], rfl, rfl, fun x hx => absurd hx (List.not_mem_nil x)⟩, rfl⟩
  · intro h
    have h2 := congrArg Payload.relationships h
    rw [(rfl : (normalizeNpcData (normalizeNpcData idemP)).relationships =
          some (JVal.jobj [("Bob", JVal.jstr "Friend")])),
        (rfl : (normalizeNpcData idemP).relationships = some (JVal.jobj []))] at h2
    have h3 := Option.some.inj h2
    have h4 : ([("Bob", JVal.jstr "Friend")] : List (String × JVal)) = [] := by
      injection h3
    exact List.noConfusion h4

theorem jsSet_new_key (acc : List (String × JVal)) (k : String) (v : JVal)
    (hk : ∀ p ∈ acc, ¬ p.1 = k) :
    jsSet (JVal.jobj acc) k v = JVal.jobj (acc ++ [(k, v)]) := by
  have hany : acc.any (fun p => p.1 == k) = false := by
    rw [List.any_eq_false]
    intro p hp
    simpa using hk p hp
  show (if acc.any (fun p => p.1 == k) = true then
      JVal.jobj (acc.map (fun p => if p.1 == k then (p.1, v) else p))
    else JVal.jobj (acc ++ [(k, v)])) = JVal.jobj (acc ++ [(k, v)])
  rw [hany]
  simp

theorem pass1_all_strings (l : List (String × JVal)) :
    ∀ acc : JVal, (∀ p ∈ l, ∃ v, p.2 = JVal.jstr v) →
      l.foldl pass1Step acc = acc := by
  induction l with
  | nil => intro acc _; rfl
  | cons p rest ih =>
    intro acc hstr
    obtain ⟨v, hv⟩ := hstr p (List.mem_cons_self p rest)
    rw [List.foldl_cons]
    have hstep : pass1Step acc p = acc := by
      unfold pass1Step
      rw [hv]
    rw [hstep]
    exact ih acc (fun q hq => hstr q (List.mem_cons_of_mem p hq))

theorem pass2_rebuild (l : List (String × JVal)) :
    ∀ acc : List (String × JVal),
      ((acc ++ l).map Prod.fst).Nodup →
      (∀ p ∈ l, ∃ v, p.2 = JVal.jstr v) →
      l.foldl pass2Step (JVal.jobj acc) = JVal.jobj (acc ++ l) := by
  induction l with
  | nil =>
    intro acc _ _
    rw [List.foldl_nil, List.append_nil]
  | cons p rest ih =>
    intro acc hnd hstr
    obtain ⟨v, hv⟩ := hstr p (List.mem_cons_self p rest)
    have hdisj : ∀ q ∈ acc, ¬ q.1 = p.1 := by
      intro q hq hqp
      rw [List.map_append, List.nodup_append] at hnd
      exact hnd.2.2 (List.mem_map_of_mem Prod.fst hq)
        (hqp ▸ List.mem_map_of_mem Prod.fst (List.mem_cons_self p rest))
    have hstep : pass2Step (JVal.jobj acc) p = JVal.jobj (acc ++ [p]) := by
      have h1 : pass2Step (JVal.jobj acc) p = jsSet (JVal.jobj acc) p.1 (JVal.jstr v) := by
        unfold pass2Step
        rw [hv]
      rw [h1, jsSet_new_key acc p.1 (JVal.jstr v) hdisj,
        show ((p.1, JVal.jstr v) : String × JVal) = p from Prod.ext rfl hv.symm]
    rw [List.foldl_cons, hstep]
    have hnd' : (((acc ++ [p]) ++ rest).map Prod.fst).Nodup := by
      rw [List.append_assoc, List.singleton_append]
      exact hnd
    rw [ih (acc ++ [p]) hnd' (fun q hq => hstr q (List.mem_cons_of_mem p hq))]
    rw [List.append_assoc, List.singleton_append]

theorem numericKeysConvert_fix (l : List (String × JVal))
    (hnd : (l.map Prod.fst).Nodup) (hstr : ∀ p ∈ l, ∃ v, p.2 = JVal.jstr v) :
    numericKeysConvert (JVal.jobj l) = JVal.jobj l := by
  simp only [numericKeysConvert]
  rw [show jsEntries (JVal.jobj l) = l from rfl]
  rw [pass1_all_strings l (JVal.jobj []) hstr]
  rw [show ((jsKeys (JVal.jobj ([] : List (String × JVal)))).length == 0) = true from rfl,
    if_pos rfl]
  rw [pass2_rebuild l [] (by simpa using hnd) hstr, List.nil_append]
  cases l with
  | nil =>
    rfl
  | cons p rest =>
    rw [show ((jsKeys (JVal.jobj (p :: rest))).length == 0) = false from rfl]
    simp

theorem processRelationshipsObject_fix (l : List (String × JVal))
    (hnd : (l.map Prod.fst).Nodup) (hstr : ∀ p ∈ l, ∃ v, p.2 = JVal.jstr v) :
    processRelationshipsObject (JVal.jobj l) = JVal.jobj l := by
  show (if (jsKeys (JVal.jobj l)).any (fun k => !(jsParseIntNaN k)) then
      numericKeysConvert (JVal.jobj l) else JVal.jobj l) = JVal.jobj l
  by_cases h : (jsKeys (JVal.jobj l)).any (fun k => !(jsParseIntNaN k)) = true
  · rw [if_pos h, numericKeysConvert_fix l hnd hstr]
  · rw [if_neg h]

theorem normalize_pr_truthy (P : Payload) :
    ∃ v, (normalizeNpcData P).player_relationship = some v ∧ jsTruthy v = true := by
  have hproj : (normalizeNpcData P).player_relationship =
      (if jsTruthyOpt P.player_relationship = true then P.player_relationship
       else some defaultPlayerRelationship) := rfl
  rw [hproj]
  cases hP : P.player_relationship with
  | none =>
    rw [show jsTruthyOpt (none : Option JVal) = false from rfl]
    exact ⟨defaultPlayerRelationship, by simp, rfl⟩
  | some v =>
    by_cases hv : jsTruthy v = true
    · refine ⟨v, ?_, hv⟩
      rw [show jsTruthyOpt (some v) = jsTruthy v from rfl, hv]
      simp
    · refine ⟨defaultPlayerRelationship, ?_, rfl⟩
      rw [show jsTruthyOpt (some v) = jsTruthy v from rfl]
      simp [hv]

theorem normalizeNpcData_fix (E : Payload)
    (hrel : ∃ r, E.relationships = some r ∧ flatStringMap r)
    (hinv : ∃ i, E.inventory = some i ∧ flatStringList i)
    (hskl : ∃ k, E.skills = some k ∧ flatStringList k)
    (hpr : ∃ v, E.player_relationship = some v ∧ jsTruthy v = true)
    (hs : E.relationship = none) :
    normalizeNpcData E = E := by
  obtain ⟨r, hr, hfr⟩ := hrel
  obtain ⟨i, hi, hfi⟩ := hinv
  obtain ⟨k, hk, hfk⟩ := hskl
  obtain ⟨v, hv, htv⟩ := hpr
  cases E with
  | mk name rel rels inv skl pr extra =>
    dsimp only at hr hi hk hv hs
    subst hr hi hk hv hs
    cases r with
    | jobj l =>
      obtain ⟨hndl, hstrl⟩ := hfr
      cases i with
      | jarr itemsI propsI =>
        obtain ⟨hpI, _⟩ := hfi
        subst hpI
        cases k with
        | jarr itemsK propsK =>
          obtain ⟨hpK, _⟩ := hfk
          subst hpK
          have hmain : normalizeNpcData
              (Payload.mk name none (some (JVal.jobj l)) (some (JVal.jarr itemsI []))
                (some (JVal.jarr itemsK [])) (some v) extra) =
              Payload.mk name none (some (processRelationshipsObject (JVal.jobj l)))
                (some (JVal.jarr itemsI [])) (some (JVal.jarr itemsK []))
                (if jsTruthy v = true then some v else some defaultPlayerRelationship)
                extra := rfl
          rw [hmain, processRelationshipsObject_fix l hndl hstrl, if_pos htv]
        | jnull => exact hfk.elim
        | jbool b => exact hfk.elim
        | jnum q => exact hfk.elim
        | jstr s => exact hfk.elim
        | jobj l2 => exact hfk.elim
      | jnull => exact hfi.elim
      | jbool b => exact hfi.elim
      | jnum q => exact hfi.elim
      | jstr s => exact hfi.elim
      | jobj l2 => exact hfi.elim
    | jnull => exact hfr.elim
    | jbool b => exact hfr.elim
    | jnum q => exact hfr.elim
    | jstr s => exact hfr.elim
    | jarr items props => exact hfr.elim

/-- C7 (amended): the normalizer is idempotent on canonical outputs that
retain no singular `relationship` field — running it again on such an
output returns the output unchanged.  (The counterexample shows the claim
fails exactly when a leftover singular field survives normalization: it is
deleted only in the escaped-quote path.) -/
theorem normalizer_idempotent_amended (P : Payload)
    (hc : CanonicalOutput (normalizeNpcData P))
    (hns : (normalizeNpcData P).relationship = none) :
    normalizeNpcData (normalizeNpcData P) = normalizeNpcData P := by
  obtain ⟨hrel, hinv, hskl, _⟩ := hc
  exact normalizeNpcData_fix (normalizeNpcData P) hrel hinv hskl
    (normalize_pr_truthy P) hns

/-- C7 witness: a payload already carrying a flat relationships map. -/
theorem normalizer_idempotent_witness :
    normalizeNpcData (normalizeNpcData idemWitnessP) = normalizeNpcData idemWitnessP := by
  refine normalizer_idempotent_amended idemWitnessP
    ⟨⟨JVal.jobj [("Mayor", JVal.jstr "Respectful")], rfl, by decide, ?_⟩,
     ⟨JVal.jarr [] [], rfl, rfl, fun x hx => absurd hx (List.not_mem_nil x)⟩,
     ⟨JVal.jarr [] [], rfl, rfl, fun x hx => absurd hx (List.not_mem_nil x)⟩, rfl⟩ rfl
  intro p hp
  rw [List.mem_singleton] at hp
  subst hp
  exact ⟨"Respectful", rfl⟩
